import Mathlib

/-!
# sslcheckdomain: certificate status classification and the probe engine

A shallow embedding of `pkg/models/certificate.go` and `internal/checker/ssl.go`.

* Go library behaviour the code relies on (`time.Time.Sub`, `time.Duration.Hours`,
  `float64` arithmetic, the `int(float64)` conversion, `tls.Config`, channels and
  `sync.WaitGroup`) is modelled explicitly in the first sections.
* The wall clock read by `time.Until` is a parameter `now`.
* The network is a parameter: each call of `checkDomain` receives a `ProbeEnv`
  describing what the dial returned and whether the per-check context was done.
* `CheckDomains` is a transition system over goroutine states; every interleaving
  of the main goroutine, the workers and the closer goroutine is a run of it.
-/

/-! ## binary64 arithmetic -/

namespace float64

/-- A finite binary64 value `mant * 2 ^ expo`. The representation is not
normalised; two pairs denoting the same number are the same float. Signed
zeros, infinities and NaN are not represented: the only float computation in
the program (`Duration.Hours() / 24`) works on magnitudes between `2 ^ (-47)`
and `2 ^ 22`, or on zero, far inside the normal range, and its result is only
converted to an integer. -/
structure F64 where
  mant : Int
  expo : Int
deriving DecidableEq, Repr

/-- The rational number denoted by a float. -/
def F64.toRat (x : F64) : ℚ := (x.mant : ℚ) * (2 : ℚ) ^ x.expo

/-- Round the non-negative fraction `n / d` to the nearest integer, ties to the
even neighbour. -/
def rneDiv (n d : Nat) : Nat :=
  if 2 * (n % d) < d then n / d
  else if d < 2 * (n % d) then n / d + 1
  else if (n / d) % 2 = 0 then n / d else n / d + 1

/-- Binary logarithm by repeated halving; `fuel` bounds the number of halvings. -/
def log2Fuel : Nat → Nat → Nat
  | 0, _ => 0
  | fuel + 1, n => if n < 2 then 0 else log2Fuel fuel (n / 2) + 1

/-- The position of the leading bit: `2 ^ ilog2 n ≤ n < 2 ^ (ilog2 n + 1)` for `n > 0`. -/
def ilog2 (n : Nat) : Nat := log2Fuel n n

/-- The binary exponent of the positive fraction `n / d`: the `e` with
`2 ^ e ≤ n / d < 2 ^ (e + 1)`. -/
def ilog2Frac (n d : Nat) : Int :=
  if d * 2 ^ ilog2 n ≤ n * 2 ^ ilog2 d then (ilog2 n : Int) - ilog2 d
  else (ilog2 n : Int) - ilog2 d - 1

/-- Round the exact quotient `N / D` (`D > 0`) to binary64: 53 significant bits,
round to nearest, ties to even. -/
def roundFrac (N : Int) (D : Nat) : F64 :=
  if N = 0 then ⟨0, 0⟩
  else
    let s : Int := 52 - ilog2Frac N.natAbs D
    let m : Nat :=
      if 0 ≤ s then rneDiv (N.natAbs * 2 ^ s.toNat) D
      else rneDiv N.natAbs (D * 2 ^ (-s).toNat)
    ⟨N.sign * m, -s⟩

/-- The conversion `float64(n)` of an integer. -/
def F64.ofInt (n : Int) : F64 := roundFrac n 1

/-- Float division `a / b` for a non-zero divisor: the exact quotient, rounded. -/
def F64.div (a b : F64) : F64 :=
  let k := a.expo - b.expo
  roundFrac ((a.mant * b.mant.sign) * 2 ^ k.toNat) (b.mant.natAbs * 2 ^ (-k).toNat)

/-- Float addition `a + b`: the exact sum, rounded. -/
def F64.add (a b : F64) : F64 :=
  let e := min a.expo b.expo
  let N : Int := a.mant * 2 ^ (a.expo - e).toNat + b.mant * 2 ^ (b.expo - e).toNat
  roundFrac (N * 2 ^ e.toNat) (2 ^ (-e).toNat)

/-- The conversion `int(x)`: the fraction is discarded (truncation toward zero). -/
def F64.toInt (a : F64) : Int :=
  Int.tdiv (a.mant * 2 ^ a.expo.toNat) (2 ^ (-a.expo).toNat)

end float64

/-! ## package time -/

namespace time

open float64

/-- An instant, in nanoseconds since the zero `time.Time` (January 1, year 1,
00:00:00 UTC), so that the zero value of the Go type is `0`. -/
abbrev Time := Int

/-- A `time.Duration`: a signed 64-bit count of nanoseconds. -/
abbrev Duration := Int

/-- The smallest `Duration`, `-1 << 63`. -/
def minDuration : Duration := -9223372036854775808

/-- The largest `Duration`, `1<<63 - 1`. -/
def maxDuration : Duration := 9223372036854775807

/-- The constant `time.Hour`. -/
def Hour : Duration := 3600000000000

/-- The constant `time.Second`. -/
def Second : Duration := 1000000000

/-- The method `t.Sub(u)`: the duration `t - u`, replaced by the maximum (or
minimum) duration when the difference does not fit a `Duration`. -/
def Sub (t u : Time) : Duration :=
  if t - u < minDuration then minDuration
  else if maxDuration < t - u then maxDuration
  else t - u

/-- The function `time.Until(t)`, that is `t.Sub(time.Now())`, with the clock
reading `now` made explicit. -/
def Until (now : Time) (t : Time) : Duration := Sub t now

/-- The method `d.Hours()`: `float64(d / Hour) + float64(d % Hour) / (60*60*1e9)`,
where `/` and `%` on integers truncate toward zero. -/
def Hours (d : Duration) : F64 :=
  F64.add (F64.ofInt (Int.tdiv d Hour))
    (F64.div (F64.ofInt (Int.tmod d Hour)) (F64.ofInt 3600000000000))

end time

/-! ## package models -/

namespace models

open float64 time

/-- The Go type `CertificateStatus`, a string. -/
abbrev CertificateStatus := String

def StatusExpired : CertificateStatus := "expired"
def StatusWarning : CertificateStatus := "warning"
def StatusOK : CertificateStatus := "ok"
def StatusError : CertificateStatus := "error"

/-- SSL certificate information. The Go `error` interface value is modelled by
its message; `none` is `nil`. Field defaults are the Go zero values. -/
structure Certificate where
  Domain : String := ""
  Status : CertificateStatus := ""
  ExpiresAt : Time := 0
  IssuedAt : Time := 0
  Issuer : String := ""
  Subject : String := ""
  DaysLeft : Int := 0
  SerialNumber : String := ""
  Error : Option String := none
deriving DecidableEq, Repr

/-- DaysUntilExpiration calculates days left until expiration:
`int(time.Until(c.ExpiresAt).Hours() / 24)`. -/
def Certificate.DaysUntilExpiration (now : Time) (c : Certificate) : Int :=
  F64.toInt (F64.div (Hours (Until now c.ExpiresAt)) (F64.ofInt 24))

/-- DetermineStatus determines the status based on days left and threshold. -/
def Certificate.DetermineStatus (now : Time) (c : Certificate) (warningThreshold : Int) :
    Certificate :=
  if c.Error ≠ none then
    { c with Status := StatusError }
  else
    let c1 := { c with DaysLeft := c.DaysUntilExpiration now }
    if c1.DaysLeft < 0 then { c1 with Status := StatusExpired }
    else if c1.DaysLeft ≤ warningThreshold then { c1 with Status := StatusWarning }
    else { c1 with Status := StatusOK }

end models

/-! ## package checker: the probe worker -/

namespace checker

open float64 time models

/-- The fields of `tls.Config` relevant to the handshake; defaults are the Go
zero values. With `InsecureSkipVerify` false the client verifies the server
certificate chain and host name. -/
structure TLSConfig where
  ServerName : String := ""
  MinVersion : Nat := 0
  InsecureSkipVerify : Bool := false
deriving DecidableEq, Repr

/-- The constant `tls.VersionTLS12`. -/
def VersionTLS12 : Nat := 0x0303

/-- The fields of `net.Dialer` set by the code. -/
structure Dialer where
  Timeout : Duration := 0
deriving DecidableEq, Repr

/-- The fields of an `x509.Certificate` read by the code. -/
structure PeerCertificate where
  NotAfter : Time
  NotBefore : Time
  IssuerCommonName : String
  SubjectCommonName : String
  SerialNumber : Int
deriving DecidableEq, Repr

/-- The outcome of `tls.DialWithDialer`: an error with its message, or a
connection whose state carries the peer certificates. -/
inductive DialResult where
  | failed (cause : String)
  | connected (PeerCertificates : List PeerCertificate)
deriving DecidableEq, Repr

/-- What the outside world does during one call of `checkDomain`.
* `ctxCancelled`: the caller's context is already cancelled on entry;
* `dial`: the result of `tls.DialWithDialer` for the given dialer, network,
  address and configuration;
* `deadlineReached`: the caller's context was cancelled, or the timeout of the
  derived context elapsed, between entry and the `select`;
* `now`: the clock reading used by `DetermineStatus`. -/
structure ProbeEnv where
  ctxCancelled : Bool
  dial : Dialer → String → String → TLSConfig → DialResult
  deadlineReached : Bool
  now : Time

/-- SSLChecker checks SSL certificates for domains. -/
structure SSLChecker where
  timeout : Duration
  concurrent : Int
deriving DecidableEq, Repr

/-- New creates a new SSL checker. -/
def New (timeout : Duration) (concurrent : Int) : SSLChecker :=
  { timeout := timeout, concurrent := concurrent }

/-- Whether `checkCtx.Done()` is ready at the `select`, for
`checkCtx, cancel := context.WithTimeout(ctx, c.timeout)`: a derived context is
done as soon as its parent is, is created already expired when the timeout is
not positive, and stays done once done. -/
def checkCtxDone (c : SSLChecker) (env : ProbeEnv) : Bool :=
  env.ctxCancelled || decide (c.timeout ≤ 0) || env.deadlineReached

/-- The `tls.Config` literal passed to `tls.DialWithDialer`. -/
def dialConfig (domain : String) : TLSConfig :=
  { ServerName := domain, MinVersion := VersionTLS12 }

/-- The method checkDomain checks SSL certificate for a single domain. -/
def SSLChecker.checkDomain (c : SSLChecker) (env : ProbeEnv) (domain : String)
    (threshold : Int) : Certificate :=
  let cert : Certificate := { Domain := domain }
  match env.dial { Timeout := c.timeout } "tcp" (domain ++ ":443") (dialConfig domain) with
  | .failed cause =>
    ({ cert with Error := some ("failed to connect: " ++ cause) }).DetermineStatus env.now threshold
  | .connected peerCertificates =>
    if checkCtxDone c env then
      ({ cert with Error := some "check timeout" }).DetermineStatus env.now threshold
    else
      match peerCertificates with
      | [] =>
        ({ cert with Error := some "no certificate found" }).DetermineStatus env.now threshold
      | peerCert :: _ =>
        ({ cert with
            ExpiresAt := peerCert.NotAfter
            IssuedAt := peerCert.NotBefore
            Issuer := peerCert.IssuerCommonName
            Subject := peerCert.SubjectCommonName
            SerialNumber := toString peerCert.SerialNumber }).DetermineStatus env.now threshold

/-- CheckDomain checks SSL certificate for a single domain (public method). -/
def SSLChecker.CheckDomain (c : SSLChecker) (env : ProbeEnv) (domain : String)
    (threshold : Int) : Certificate :=
  c.checkDomain env domain threshold

end checker

/-! ## package checker: the probe engine

`CheckDomains` starts `c.concurrent` worker goroutines and one closer goroutine
that communicate with the calling goroutine over two buffered channels. A
`Pool` is a snapshot of all of them; a `Move` lets one goroutine execute its
next operation. A goroutine whose next operation blocks has no move. -/

namespace checker

open float64 time models

/-- A buffered Go channel of capacity `cap ≥ 1`. -/
structure Chan (α : Type) where
  buf : List α
  cap : Nat
  closed : Bool

/-- The expression `make(chan T, n)`. -/
def Chan.make {α : Type} (n : Nat) : Chan α := { buf := [], cap := n, closed := false }

/-- A worker goroutine, running
`defer wg.Done(); for domain := range jobs { cert := c.checkDomain(...); results <- cert }`. -/
inductive Worker where
  /-- at `range jobs`, about to receive -/
  | receiving
  /-- holding a domain, about to call `checkDomain` -/
  | checking (domain : String)
  /-- holding a record, about to send it on `results` -/
  | sending (cert : Certificate)
  /-- the loop has ended and `wg.Done()` has run -/
  | exited
deriving DecidableEq, Repr

/-- The goroutine `go func() { wg.Wait(); close(results) }()`. -/
inductive Closer where
  | notStarted
  /-- at `wg.Wait()` -/
  | waiting
  /-- at `close(results)` -/
  | closing
  | exited
deriving DecidableEq, Repr

/-- The calling goroutine, after the channels have been made. -/
inductive Main where
  /-- at the test `i < c.concurrent` of the spawning loop -/
  | spawn (i : Int)
  /-- in the loop `for _, domain := range domains`, with `rest` still to be
  sent; `send []` is at `close(jobs)` -/
  | send (rest : List String)
  /-- at the `go` statement of the closer -/
  | startCloser
  /-- in the loop `for cert := range results` -/
  | collect (certificates : List Certificate)
  /-- the function has returned `certificates, err` -/
  | returned (certificates : List Certificate) (err : Option String)
deriving DecidableEq, Repr

/-- A snapshot of one call of `CheckDomains`; `wg` is the WaitGroup counter and
`panicked` records a run-time panic, which ends the program. -/
structure Pool where
  main : Main
  jobs : Chan String
  results : Chan Certificate
  wg : Int
  workers : List Worker
  closer : Closer
  panicked : Bool

/-- One scheduling decision: which goroutine runs its next operation. A worker
move carries the environment its `checkDomain` call would run in. -/
inductive Move where
  | main
  | worker (i : Nat) (env : ProbeEnv)
  | closer

/-- The state on entry to `CheckDomains`, after the length check and the two
`make` calls. -/
def start (domains : List String) : Pool :=
  if domains.length = 0 then
    { main := .returned [] (some "no domains to check"), jobs := Chan.make 0,
      results := Chan.make 0, wg := 0, workers := [], closer := .notStarted, panicked := false }
  else
    { main := .spawn 0, jobs := Chan.make domains.length, results := Chan.make domains.length,
      wg := 0, workers := [], closer := .notStarted, panicked := false }

/-- The next operation of the calling goroutine. -/
def stepMain (c : SSLChecker) (domains : List String) (s : Pool) : Option Pool :=
  match s.main with
  | .spawn i =>
    if i < c.concurrent then
      some { s with wg := s.wg + 1, workers := s.workers ++ [Worker.receiving],
                    main := .spawn (i + 1) }
    else some { s with main := .send domains }
  | .send (domain :: rest) =>
    if s.jobs.closed then some { s with panicked := true }
    else if s.jobs.buf.length < s.jobs.cap then
      some { s with jobs := { s.jobs with buf := s.jobs.buf ++ [domain] }, main := .send rest }
    else none
  | .send [] =>
    if s.jobs.closed then some { s with panicked := true }
    else some { s with jobs := { s.jobs with closed := true }, main := .startCloser }
  | .startCloser => some { s with closer := .waiting, main := .collect [] }
  | .collect certificates =>
    match s.results.buf with
    | cert :: rest =>
      some { s with results := { s.results with buf := rest },
                    main := .collect (certificates ++ [cert]) }
    | [] =>
      if s.results.closed then some { s with main := .returned certificates none } else none
  | .returned _ _ => none

/-- The next operation of worker `i`. -/
def stepWorker (c : SSLChecker) (threshold : Int) (s : Pool) (i : Nat) (env : ProbeEnv) :
    Option Pool :=
  match s.workers[i]? with
  | none => none
  | some .receiving =>
    match s.jobs.buf with
    | domain :: rest =>
      some { s with jobs := { s.jobs with buf := rest },
                    workers := s.workers.set i (.checking domain) }
    | [] =>
      if s.jobs.closed then
        if s.wg - 1 < 0 then some { s with panicked := true }
        else some { s with wg := s.wg - 1, workers := s.workers.set i .exited }
      else none
  | some (.checking domain) =>
    some { s with workers := s.workers.set i (.sending (c.checkDomain env domain threshold)) }
  | some (.sending cert) =>
    if s.results.closed then some { s with panicked := true }
    else if s.results.buf.length < s.results.cap then
      some { s with results := { s.results with buf := s.results.buf ++ [cert] },
                    workers := s.workers.set i .receiving }
    else none
  | some .exited => none

/-- The next operation of the closer goroutine. -/
def stepCloser (s : Pool) : Option Pool :=
  match s.closer with
  | .notStarted => none
  | .waiting => if s.wg = 0 then some { s with closer := .closing } else none
  | .closing =>
    if s.results.closed then some { s with panicked := true }
    else some { s with results := { s.results with closed := true }, closer := .exited }
  | .exited => none

/-- One move of the pool; `none` when the chosen goroutine is blocked or has
finished, or when the program has panicked. -/
def step (c : SSLChecker) (domains : List String) (threshold : Int) (s : Pool) :
    Move → Option Pool
  | .main => if s.panicked then none else stepMain c domains s
  | .worker i env => if s.panicked then none else stepWorker c threshold s i env
  | .closer => if s.panicked then none else stepCloser s

/-- Run a schedule from a state; `none` when some move of it is not enabled. -/
def run (c : SSLChecker) (domains : List String) (threshold : Int) :
    Pool → List Move → Option Pool
  | s, [] => some s
  | s, m :: ms =>
    match step c domains threshold s m with
    | some t => run c domains threshold t ms
    | none => none

/-- CheckDomains checks SSL certificates for multiple domains concurrently.
The value is what the call has returned after the goroutines made the moves of
`sched`, or `none` when it has not returned (or `sched` is not a run). -/
def SSLChecker.CheckDomains (c : SSLChecker) (sched : List Move) (domains : List String)
    (threshold : Int) : Option (List Certificate × Option String) :=
  match run c domains threshold (start domains) sched with
  | some s =>
    match s.main with
    | .returned certificates err => some (certificates, err)
    | _ => none
  | none => none

end checker

/-! ## Sample inputs

The clock reading `63900000000000000000` is an instant in the year 2025. -/

namespace models

/-- A record without error whose certificate expires exactly ten days after the
sample clock reading. -/
def tenDaysCert : Certificate := { Domain := "example.com", ExpiresAt := 63900864000000000000 }

/-- A record without error whose certificate expired one second before the
sample clock reading. -/
def justExpiredCert : Certificate :=
  { Domain := "example.com", ExpiresAt := 63899999999000000000 }

/-- A record without error whose certificate expires one nanosecond less than
171 days after the sample clock reading. -/
def longLivedCert : Certificate :=
  { Domain := "example.com", ExpiresAt := 63914774399999999999 }

end models

namespace checker

open time

/-- An environment in which the connection is refused. -/
def refusedEnv : ProbeEnv where
  ctxCancelled := false
  dial := fun _ _ _ _ => .failed "dial tcp 192.0.2.1:443: connect: connection refused"
  deadlineReached := false
  now := 63900000000000000000

/-- A peer certificate that expires ten days after the sample clock reading. -/
def sampleCert : PeerCertificate where
  NotAfter := 63900864000000000000
  NotBefore := 63890000000000000000
  IssuerCommonName := "R3"
  SubjectCommonName := "example.com"
  SerialNumber := 1234

/-- An environment in which the caller has already cancelled the context, while
the dial still succeeds and the peer presents a certificate valid for ten more
days. -/
def cancelledEnv : ProbeEnv where
  ctxCancelled := true
  dial := fun _ _ _ _ => .connected [sampleCert]
  deadlineReached := false
  now := 63900000000000000000

end checker

/-! ## Bookkeeping for the probe engine

The domains in flight, a termination measure, and the invariant that every
reachable pool satisfies. -/

namespace checker

open models

/-- The domain a worker currently holds, if any. -/
@[simp] def Worker.held : Worker → List String
  | .checking domain => [domain]
  | .sending cert => [cert.Domain]
  | _ => []

/-- Whether the worker goroutine is still running. -/
@[simp] def Worker.alive : Worker → Bool
  | .exited => false
  | _ => true

/-- The number of operations a worker can still perform without new input. -/
@[simp] def Worker.weight : Worker → Nat
  | .receiving => 1
  | .checking _ => 4
  | .sending _ => 3
  | .exited => 0

/-- The domains the calling goroutine has not yet put on `jobs`. -/
@[simp] def Main.unsent (domains : List String) : Main → List String
  | .spawn _ => domains
  | .send rest => rest
  | _ => []

/-- The records the calling goroutine has taken from `results`. -/
@[simp] def Main.collected : Main → List Certificate
  | .collect certificates => certificates
  | .returned certificates _ => certificates
  | _ => []

@[simp] def Main.weight (c : SSLChecker) (domains : List String) : Main → Nat
  | .spawn i => 2 * (c.concurrent - i).toNat + 5 * domains.length + 6
  | .send rest => 5 * rest.length + 5
  | .startCloser => 4
  | .collect _ => 1
  | .returned _ _ => 0

@[simp] def Closer.weight : Closer → Nat
  | .notStarted => 0
  | .waiting => 2
  | .closing => 1
  | .exited => 0

/-- A bound on the number of moves the pool can still make. -/
def Pool.measure (c : SSLChecker) (domains : List String) (s : Pool) : Nat :=
  s.main.weight c domains + 4 * s.jobs.buf.length + (s.workers.map Worker.weight).sum +
    s.results.buf.length + s.closer.weight + (if s.panicked then 0 else 1)

/-- Every domain the pool still has to account for, wherever it currently is:
not yet sent, queued on `jobs`, held by a worker, queued on `results` as a
record, or already collected. -/
def Pool.tokens (domains : List String) (s : Pool) : List String :=
  s.main.unsent domains ++ s.jobs.buf ++ s.workers.flatMap Worker.held ++
    s.results.buf.map (fun cert => cert.Domain) ++
    s.main.collected.map (fun cert => cert.Domain)

/-- What holds of the other goroutines at each point of the calling goroutine. -/
def Pool.phaseOK (c : SSLChecker) (s : Pool) : Prop :=
  match s.main with
  | .spawn i =>
    0 ≤ i ∧ (s.workers.length : Int) = i ∧ i ≤ max c.concurrent 0 ∧ s.jobs.closed = false ∧
      s.closer = .notStarted
  | .send _ =>
    s.workers.length = c.concurrent.toNat ∧ s.jobs.closed = false ∧ s.closer = .notStarted
  | .startCloser =>
    s.workers.length = c.concurrent.toNat ∧ s.jobs.closed = true ∧ s.closer = .notStarted
  | .collect _ =>
    s.workers.length = c.concurrent.toNat ∧ s.jobs.closed = true ∧ s.closer ≠ .notStarted
  | .returned _ err =>
    s.workers.length = c.concurrent.toNat ∧ s.jobs.closed = true ∧ s.closer = .exited ∧
      err = none ∧ s.results.buf = []

/-- The invariant of the pool. -/
structure Pool.Inv (c : SSLChecker) (domains : List String) (s : Pool) : Prop where
  tokens : ∀ a, (s.tokens domains).count a = domains.count a
  capJobs : s.jobs.cap = domains.length
  capResults : s.results.cap = domains.length
  noPanic : s.panicked = false
  wgCount : s.wg = (s.workers.countP Worker.alive : Nat)
  phase : s.phaseOK c
  closerDone : s.closer = .closing ∨ s.closer = .exited → s.wg = 0
  resultsClosed : s.results.closed = true ↔ s.closer = .exited
  workerExited : s.workers.countP Worker.alive < s.workers.length →
    s.jobs.closed = true ∧ s.jobs.buf = []
  noWorkers : s.workers = [] → s.results.buf = [] ∧ s.main.collected = []

end checker

namespace checker

open time

/-- A checker with a ten-second timeout and two workers. -/
def twoWorkerChecker : SSLChecker := New (10 * Second) 2

/-- A checker with a ten-second timeout and concurrency 0. -/
def noWorkerChecker : SSLChecker := New (10 * Second) 0

/-- A complete run of two workers over three domains, one of them listed
twice: the calling goroutine spawns both workers, queues the domains, closes
`jobs` and starts the closer; the workers probe, the closer closes `results`,
and the calling goroutine collects. -/
def twoWorkerSchedule : List Move :=
  [.main, .main, .main, .main, .main, .main, .main, .main,
   .worker 0 refusedEnv, .worker 1 cancelledEnv, .worker 0 refusedEnv, .worker 1 cancelledEnv,
   .worker 1 cancelledEnv, .worker 0 refusedEnv, .worker 0 refusedEnv, .worker 0 refusedEnv,
   .worker 0 refusedEnv, .worker 1 cancelledEnv, .worker 0 refusedEnv,
   .closer, .main, .main, .closer, .main, .main]

/-- A complete run with concurrency 0 and one domain: no worker exists, the
closer finds the WaitGroup counter at zero and closes `results`, and the
calling goroutine finds the channel closed and empty. -/
def noWorkerSchedule : List Move :=
  [.main, .main, .main, .main, .closer, .closer, .main]

end checker

/-! ## Specification of binary64 rounding

The executable rounding above is related to the rational numbers by these
predicates, which the proofs use. -/

namespace float64

/-- `m` is `x` rounded to the nearest integer, ties to even. -/
def IsRne (x : ℚ) (m : ℤ) : Prop :=
  x - 1 / 2 ≤ m ∧ (m : ℚ) ≤ x + 1 / 2 ∧ ((m : ℚ) = x - 1 / 2 ∨ (m : ℚ) = x + 1 / 2 → Even m)

/-- `r` is the positive number `x` rounded to 53 significant bits. -/
def IsRoundPos (x r : ℚ) : Prop :=
  ∃ (e m : ℤ), (2 : ℚ) ^ e ≤ x ∧ x < 2 ^ (e + 1) ∧ r = m * 2 ^ (e - 52) ∧
    IsRne (x * 2 ^ (52 - e)) m

/-- `r` is `x` rounded to binary64. -/
def Rounds (x r : ℚ) : Prop :=
  (x = 0 ∧ r = 0) ∨ (0 < x ∧ IsRoundPos x r) ∨ (x < 0 ∧ IsRoundPos (-x) (-r))

/-- Truncation toward zero of a rational. -/
def truncQ (x : ℚ) : ℤ := if 0 ≤ x then ⌊x⌋ else ⌈x⌉

end float64

namespace time

open float64

/-- The expression `int(d.Hours() / 24)` of `DaysUntilExpiration`, as a function
of the duration. -/
def daysOf (d : Duration) : Int := F64.toInt (F64.div (Hours d) (F64.ofInt 24))

end time

/-! ## package models: reports -/

namespace models

open time

/-- ReportSummary provides aggregated statistics. -/
structure ReportSummary where
  Expired : Int := 0
  Warning : Int := 0
  OK : Int := 0
  Error : Int := 0
deriving DecidableEq, Repr

/-- CertificateReport represents a collection of certificate checks. -/
structure CertificateReport where
  Timestamp : Time := 0
  TotalDomains : Int := 0
  Summary : ReportSummary := {}
  Certificates : List Certificate := []
deriving DecidableEq, Repr

end models

/-! ## package config -/

namespace config

/-- Config holds application configuration. -/
structure Config where
  Provider : String := ""
  CloudflareToken : String := ""
  CloudflareEmail : String := ""
  CloudflareAccountID : String := ""
  AWSAccessKeyID : String := ""
  AWSSecretAccessKey : String := ""
  AWSRegion : String := ""
  Timeout : Int := 0
  Concurrent : Int := 0
  Threshold : Int := 0
  Output : String := ""
  Verbose : Bool := false
  Zone : String := ""
  ExpiringIn : Int := 0
  Domains : List String := []
deriving DecidableEq, Repr

/-- The map literal `validOutputs` of `Validate`, read as in `validOutputs[key]`:
a key that is not in the map gives false. -/
def validOutputs (key : String) : Bool :=
  key == "table" || key == "json" || key == "prometheus"

/-- Validate validates the configuration; the value is the message of the
returned error, `none` for `nil`. -/
def Config.Validate (c : Config) : Option String :=
  let providerErr : Option String :=
    if c.Provider = "cloudflare" then
      if c.CloudflareToken = "" then
        some "CLOUDFLARE_API_TOKEN is required for cloudflare provider"
      else none
    else if c.Provider = "route53" then
      if c.AWSAccessKeyID = "" ∨ c.AWSSecretAccessKey = "" then
        some "AWS credentials are required for route53 provider"
      else none
    else
      some ("unsupported provider: " ++ c.Provider ++ " (supported: cloudflare, route53)")
  match providerErr with
  | some err => some err
  | none =>
    if c.Timeout ≤ 0 then some "timeout must be greater than 0"
    else if c.Concurrent ≤ 0 then some "concurrent must be greater than 0"
    else if c.Threshold < 0 then some "threshold must be non-negative"
    else if !validOutputs c.Output then
      some ("invalid output format: " ++ c.Output ++ " (valid: table, json, prometheus)")
    else none

end config

/-! ## package main: report and exit code -/

namespace sslcheckdomain

open time models

/-- The body of the loop `for _, cert := range certificates` of `createReport`:
the `switch cert.Status` increments the matching counter, and none for any
other status. -/
def countStatus (summary : ReportSummary) (cert : Certificate) : ReportSummary :=
  if cert.Status = StatusExpired then { summary with Expired := summary.Expired + 1 }
  else if cert.Status = StatusWarning then { summary with Warning := summary.Warning + 1 }
  else if cert.Status = StatusOK then { summary with OK := summary.OK + 1 }
  else if cert.Status = StatusError then { summary with Error := summary.Error + 1 }
  else summary

/-- The function `createReport`; `now` is the reading of `time.Now()`. -/
def createReport (now : Time) (certificates : List Certificate) : CertificateReport :=
  { Timestamp := now
    TotalDomains := (certificates.length : Int)
    Certificates := certificates
    Summary := certificates.foldl countStatus
      { Expired := 0, Warning := 0, OK := 0, Error := 0 } }

/-- The function `getExitCode`. -/
def getExitCode (report : CertificateReport) : Int :=
  if report.Summary.Expired > 0 then 2
  else if report.Summary.Warning > 0 then 1
  else if report.Summary.Error > 0 then 3
  else 0

/-- The block `// Filter by expiring-in if specified` of `run`: when
`cfg.ExpiringIn > 0` the records with `DaysLeft <= cfg.ExpiringIn` are appended
one by one to an empty slice, which replaces `certificates`. -/
def filterExpiringIn (expiringIn : Int) (certificates : List Certificate) : List Certificate :=
  if expiringIn > 0 then
    certificates.foldl
      (fun filtered cert => if cert.DaysLeft ≤ expiringIn then filtered ++ [cert] else filtered)
      []
  else certificates

end sslcheckdomain

/-! ## Sample reports -/

namespace sslcheckdomain

open models

/-- A report with one expired certificate, warnings and errors. -/
def mixedReport : CertificateReport :=
  { TotalDomains := 6, Summary := { Expired := 1, Warning := 2, OK := 1, Error := 2 } }

/-- A report with warnings and errors but no expired certificate. -/
def warningReport : CertificateReport :=
  { TotalDomains := 4, Summary := { Expired := 0, Warning := 2, OK := 1, Error := 1 } }

/-- Two records with status OK. -/
def healthyRecords : List Certificate :=
  [{ Domain := "a.example", Status := StatusOK, DaysLeft := 80 },
   { Domain := "b.example", Status := StatusOK, DaysLeft := 200 }]

end sslcheckdomain

namespace models

/-- A record without error whose certificate expired two hours before the
sample clock reading. -/
def expiredTwoHoursCert : Certificate :=
  { Domain := "example.com", ExpiresAt := 63899992800000000000 }

end models

namespace checker

/-- An environment in which the dial succeeds, the context is not done, and the
peer presents a certificate valid for ten more days. -/
def healthyEnv : ProbeEnv where
  ctxCancelled := false
  dial := fun _ _ _ _ => .connected [sampleCert]
  deadlineReached := false
  now := 63900000000000000000

/-- Two records produced by `checkDomain`: a failed probe and a certificate with
ten days left. -/
def probedRecords : List models.Certificate :=
  [twoWorkerChecker.checkDomain refusedEnv "a.example" 30,
   twoWorkerChecker.checkDomain healthyEnv "b.example" 30]

end checker

namespace checker

/-- A leaf certificate that expired thirty days before the sample clock reading. -/
def expiredPeerCert : PeerCertificate where
  NotAfter := 63897408000000000000
  NotBefore := 63889632000000000000
  IssuerCommonName := "R3"
  SubjectCommonName := "expired.example"
  SerialNumber := 4321

/-- An endpoint that presents `expiredPeerCert`: a client that verifies the
chain gets the handshake error of `crypto/tls`, a client with
`InsecureSkipVerify` set gets the connection. -/
def expiredEndpointEnv : ProbeEnv where
  ctxCancelled := false
  dial := fun _ _ _ cfg =>
    if cfg.InsecureSkipVerify then .connected [expiredPeerCert]
    else .failed
      "tls: failed to verify certificate: x509: certificate has expired or is not yet valid"
  deadlineReached := false
  now := 63900000000000000000

/-- Whether the calling goroutine is still in its spawning loop. -/
def Main.spawning : Main → Bool
  | .spawn _ => true
  | _ => false

end checker

/-! ## Status classification -/

namespace models

open float64 time

/-- C1: for a threshold `T ≥ 0` and a certificate without error whose computed
days left is `D`, `DetermineStatus` stores `D` and sets the status to EXPIRED
iff `D < 0`, to WARNING iff `0 ≤ D ≤ T`, and to OK iff `D > T`. -/
theorem C1_DetermineStatus_classifies (now : Time) (c : Certificate) (T : Int)
    (hT : 0 ≤ T) (hE : c.Error = none) :
    (c.DetermineStatus now T).DaysLeft = c.DaysUntilExpiration now ∧
    ((c.DetermineStatus now T).Status = StatusExpired ↔ c.DaysUntilExpiration now < 0) ∧
    ((c.DetermineStatus now T).Status = StatusWarning ↔
      0 ≤ c.DaysUntilExpiration now ∧ c.DaysUntilExpiration now ≤ T) ∧
    ((c.DetermineStatus now T).Status = StatusOK ↔ T < c.DaysUntilExpiration now) := by
  have h1 : StatusExpired ≠ StatusWarning := by decide
  have h2 : StatusExpired ≠ StatusOK := by decide
  have h3 : StatusWarning ≠ StatusOK := by decide
  unfold Certificate.DetermineStatus
  simp only [hE, ne_eq, not_true_eq_false, if_false]
  by_cases hneg : c.DaysUntilExpiration now < 0
  · have hT2 : ¬ (T < c.DaysUntilExpiration now) := by omega
    simp [hneg, h1, h2, hT2]
  · by_cases hle : c.DaysUntilExpiration now ≤ T
    · have hT2 : ¬ (T < c.DaysUntilExpiration now) := by omega
      have h0 : 0 ≤ c.DaysUntilExpiration now := by omega
      simp [hneg, hle, h1.symm, h3, hT2, h0]
    · have hT2 : T < c.DaysUntilExpiration now := by omega
      have h0 : 0 ≤ c.DaysUntilExpiration now := by omega
      simp [hneg, hle, h2.symm, h3.symm, hT2, h0]

theorem C1_DetermineStatus_classifies_witness :
    (0 : Int) ≤ 30 ∧ tenDaysCert.Error = none ∧
    ((tenDaysCert.DetermineStatus 63900000000000000000 30).Status = StatusWarning ↔
      0 ≤ tenDaysCert.DaysUntilExpiration 63900000000000000000 ∧
      tenDaysCert.DaysUntilExpiration 63900000000000000000 ≤ 30) :=
  ⟨by decide, rfl,
    (C1_DetermineStatus_classifies 63900000000000000000 tenDaysCert 30 (by decide) rfl).2.2.1⟩

/-- C2: after `DetermineStatus` the error is present iff the status is ERROR: an
error always yields ERROR whatever the expiration date and threshold, a record
without error never gets ERROR; hence every record returned by `checkDomain`
satisfies the same equivalence. -/
theorem C2_error_iff_status_error (now : Time) (c : Certificate) (T : Int)
    (sc : checker.SSLChecker) (env : checker.ProbeEnv) (domain : String) :
    ((c.DetermineStatus now T).Error ≠ none ↔ (c.DetermineStatus now T).Status = StatusError) ∧
    (c.Error ≠ none → (c.DetermineStatus now T).Status = StatusError) ∧
    (c.Error = none → (c.DetermineStatus now T).Status ≠ StatusError) ∧
    ((sc.checkDomain env domain T).Error ≠ none ↔
      (sc.checkDomain env domain T).Status = StatusError) := by
  have key : ∀ (n : Time) (x : Certificate),
      ((x.DetermineStatus n T).Error ≠ none ↔ (x.DetermineStatus n T).Status = StatusError) ∧
      (x.Error ≠ none → (x.DetermineStatus n T).Status = StatusError) ∧
      (x.Error = none → (x.DetermineStatus n T).Status ≠ StatusError) := by
    intro n x
    have h1 : StatusExpired ≠ StatusError := by decide
    have h2 : StatusWarning ≠ StatusError := by decide
    have h3 : StatusOK ≠ StatusError := by decide
    unfold Certificate.DetermineStatus
    by_cases hE : x.Error = none
    · simp only [hE, ne_eq, not_true_eq_false, if_false]
      split_ifs <;> simp [hE, h1, h2, h3]
    · simp [hE]
  refine ⟨(key now c).1, (key now c).2.1, (key now c).2.2, ?_⟩
  unfold checker.SSLChecker.checkDomain
  simp only
  split
  · exact (key _ _).1
  · split_ifs
    · exact (key _ _).1
    · split
      · exact (key _ _).1
      · exact (key _ _).1

end models

/-! ## The probe worker -/

namespace checker

open float64 time models

theorem failed_to_connect_ne_empty (cause : String) : "failed to connect: " ++ cause ≠ "" := by
  intro h
  have hl := congrArg String.length h
  rw [String.length_append] at hl
  have h19 : ("failed to connect: " : String).length = 19 := by decide
  have h0 : ("" : String).length = 0 := by decide
  omega

/-- C8: on every failing exit of `checkDomain` (the dial fails, the per-check
context is done after the dial, or the peer presents no certificate) the
record carries the input domain, status ERROR, a non-empty error description
("failed to connect: <cause>" after a failed dial, "check timeout" when the
context is done, "no certificate found" for an empty peer list) and zero values
in all other fields, `DaysLeft` included. -/
theorem C8_checkDomain_failure_record (c : SSLChecker) (env : ProbeEnv) (domain : String)
    (threshold : Int)
    (hfail : (∃ cause, env.dial { Timeout := c.timeout } "tcp" (domain ++ ":443")
                (dialConfig domain) = .failed cause) ∨
             checkCtxDone c env = true ∨
             env.dial { Timeout := c.timeout } "tcp" (domain ++ ":443") (dialConfig domain)
                = .connected []) :
    ∃ msg : String, msg ≠ "" ∧
      c.checkDomain env domain threshold =
        { Domain := domain, Status := StatusError, ExpiresAt := 0, IssuedAt := 0, Issuer := "",
          Subject := "", DaysLeft := 0, SerialNumber := "", Error := some msg } ∧
      (∀ cause, env.dial { Timeout := c.timeout } "tcp" (domain ++ ":443") (dialConfig domain)
          = .failed cause → msg = "failed to connect: " ++ cause) ∧
      (∀ peers, env.dial { Timeout := c.timeout } "tcp" (domain ++ ":443") (dialConfig domain)
          = .connected peers → checkCtxDone c env = true → msg = "check timeout") ∧
      (env.dial { Timeout := c.timeout } "tcp" (domain ++ ":443") (dialConfig domain)
          = .connected [] → checkCtxDone c env = false → msg = "no certificate found") := by
  unfold SSLChecker.checkDomain
  cases hd : env.dial { Timeout := c.timeout } "tcp" (domain ++ ":443") (dialConfig domain) with
  | failed cause =>
    refine ⟨"failed to connect: " ++ cause, failed_to_connect_ne_empty cause, ?_, ?_, ?_, ?_⟩
    · simp [Certificate.DetermineStatus]
    · intro cause2 h; cases h; rfl
    · intro peers h; cases h
    · intro h; cases h
  | connected peers =>
    by_cases hc : checkCtxDone c env = true
    · refine ⟨"check timeout", by decide, ?_, ?_, ?_, ?_⟩
      · simp [Certificate.DetermineStatus, hc]
      · intro cause2 h; cases h
      · intro _ _ _; rfl
      · intro _ h; rw [hc] at h; cases h
    · have hpe : peers = [] := by
        rcases hfail with ⟨cause, h⟩ | h | h
        · rw [hd] at h; cases h
        · exact absurd h hc
        · rw [hd] at h; cases h; rfl
      subst hpe
      refine ⟨"no certificate found", by decide, ?_, ?_, ?_, ?_⟩
      · simp [Certificate.DetermineStatus, hc]
      · intro cause2 h; cases h
      · intro _ _ h; exact absurd h hc
      · intro _ _; rfl

theorem C8_checkDomain_failure_record_witness :
    refusedEnv.dial { Timeout := (New (10 * Second) 5).timeout } "tcp" ("example.com" ++ ":443")
        (dialConfig "example.com") = .failed "dial tcp 192.0.2.1:443: connect: connection refused" ∧
    ∃ msg : String, msg ≠ "" ∧
      (New (10 * Second) 5).checkDomain refusedEnv "example.com" 30 =
        { Domain := "example.com", Status := StatusError, ExpiresAt := 0, IssuedAt := 0,
          Issuer := "", Subject := "", DaysLeft := 0, SerialNumber := "", Error := some msg } := by
  obtain ⟨msg, h1, h2, _⟩ := C8_checkDomain_failure_record (New (10 * Second) 5) refusedEnv
    "example.com" 30 (Or.inl ⟨_, rfl⟩)
  exact ⟨rfl, msg, h1, h2⟩

/-- C9: when the caller's context is already cancelled on entry, `checkDomain`
returns, for every outcome of the dial, a record for the input domain with
status ERROR and an error present. -/
theorem C9_checkDomain_cancelled_context (c : SSLChecker) (env : ProbeEnv) (domain : String)
    (threshold : Int) (hctx : env.ctxCancelled = true) :
    (c.checkDomain env domain threshold).Domain = domain ∧
    (c.checkDomain env domain threshold).Status = StatusError ∧
    (c.checkDomain env domain threshold).Error ≠ none := by
  have hdone : checkCtxDone c env = true := by simp [checkCtxDone, hctx]
  unfold SSLChecker.checkDomain
  cases env.dial { Timeout := c.timeout } "tcp" (domain ++ ":443") (dialConfig domain) with
  | failed cause => simp [Certificate.DetermineStatus]
  | connected peers => simp [Certificate.DetermineStatus, hdone]

theorem C9_checkDomain_cancelled_context_witness :
    cancelledEnv.ctxCancelled = true ∧
    ((New (10 * Second) 5).checkDomain cancelledEnv "example.com" 30).Domain = "example.com" ∧
    ((New (10 * Second) 5).checkDomain cancelledEnv "example.com" 30).Status = StatusError ∧
    ((New (10 * Second) 5).checkDomain cancelledEnv "example.com" 30).Error ≠ none :=
  ⟨rfl, C9_checkDomain_cancelled_context (New (10 * Second) 5) cancelledEnv "example.com" 30 rfl⟩

/-- The configuration built for "example.com" does not disable certificate
verification. -/
theorem dialConfig_keeps_verification :
    ¬ ((dialConfig "example.com").ServerName = "example.com" ∧
       (dialConfig "example.com").MinVersion = VersionTLS12 ∧
       (dialConfig "example.com").InsecureSkipVerify = true) := by
  decide

/-- The TLS configuration that `checkDomain` hands to the dial has the server
name set to the domain, minimum version TLS 1.2 (0x0303), and
`InsecureSkipVerify` left at false, so the chain is verified; `checkDomain`
consults the dial at this configuration only. -/
theorem dialConfig_fields (c : SSLChecker) (env : ProbeEnv) (domain : String)
    (threshold : Int) :
    (dialConfig domain).ServerName = domain ∧
    (dialConfig domain).MinVersion = VersionTLS12 ∧ VersionTLS12 = 0x0303 ∧
    (dialConfig domain).InsecureSkipVerify = false ∧
    c.checkDomain env domain threshold =
      c.checkDomain
        { env with dial := fun d network addr cfg =>
            if cfg = dialConfig domain then env.dial d network addr cfg
            else .failed "not consulted" }
        domain threshold := by
  refine ⟨rfl, rfl, rfl, rfl, ?_⟩
  simp [SSLChecker.checkDomain, checkCtxDone]

set_option maxRecDepth 4000 in
/-- C10: for an endpoint whose leaf certificate has expired, the configuration
built by `checkDomain` leaves `InsecureSkipVerify` at false, the verifying
handshake fails, and the record is ERROR with `DaysLeft = 0`; with verification
disabled, as the claim says, the same endpoint hands over its certificate and
the record built from it is EXPIRED. -/
theorem C10_expired_endpoint_is_error :
    (dialConfig "expired.example").ServerName = "expired.example" ∧
    (dialConfig "expired.example").MinVersion = VersionTLS12 ∧
    (dialConfig "expired.example").InsecureSkipVerify = false ∧
    (twoWorkerChecker.checkDomain expiredEndpointEnv "expired.example" 30).Status = StatusError ∧
    (twoWorkerChecker.checkDomain expiredEndpointEnv "expired.example" 30).Error =
      some ("failed to connect: " ++
        "tls: failed to verify certificate: x509: certificate has expired or is not yet valid") ∧
    (twoWorkerChecker.checkDomain expiredEndpointEnv "expired.example" 30).DaysLeft = 0 ∧
    expiredEndpointEnv.dial { Timeout := twoWorkerChecker.timeout } "tcp"
        ("expired.example" ++ ":443")
        { dialConfig "expired.example" with InsecureSkipVerify := true } =
      .connected [expiredPeerCert] ∧
    (({ Domain := "expired.example", ExpiresAt := expiredPeerCert.NotAfter } :
        Certificate).DetermineStatus expiredEndpointEnv.now 30).Status = StatusExpired ∧
    (({ Domain := "expired.example", ExpiresAt := expiredPeerCert.NotAfter } :
        Certificate).DetermineStatus expiredEndpointEnv.now 30).DaysLeft = -30 := by
  decide

end checker

/-! ## The probe engine -/

namespace checker

open models

theorem getElem?_split {α : Type} (ws : List α) (i : Nat) (w : α) (h : ws[i]? = some w) :
    ∃ l1 l2, ws = l1 ++ w :: l2 ∧ ∀ v, ws.set i v = l1 ++ v :: l2 := by
  induction ws generalizing i with
  | nil => simp at h
  | cons x xs ih =>
    cases i with
    | zero =>
      simp at h
      subst h
      exact ⟨[], xs, rfl, fun v => rfl⟩
    | succ j =>
      simp at h
      obtain ⟨l1, l2, h1, h2⟩ := ih j h
      refine ⟨x :: l1, l2, by simp [h1], fun v => ?_⟩
      simp [h2 v]

theorem Inv_start (c : SSLChecker) (domains : List String) (hN : 1 ≤ domains.length) :
    (start domains).Inv c domains := by
  have h0 : domains.length ≠ 0 := by omega
  unfold start
  rw [if_neg h0]
  refine ⟨?_, rfl, rfl, rfl, ?_, ?_, ?_, ?_, ?_, ?_⟩
  · intro a; simp [Pool.tokens, Chan.make]
  · simp
  · simp [Pool.phaseOK, Chan.make]
  · simp
  · simp [Chan.make]
  · simp
  · simp [Chan.make]

theorem Inv_stepMain (c : SSLChecker) (domains : List String) (s t : Pool)
    (hI : s.Inv c domains) (h : stepMain c domains s = some t) : t.Inv c domains := by
  obtain ⟨main, ⟨jbuf, jcap, jclosed⟩, ⟨rbuf, rcap, rclosed⟩, wg, workers, closer, panicked⟩ := s
  obtain ⟨htok, hcj, hcr, hnp, hwg, hph, hcl, hrc, hex, hnw⟩ := hI
  simp only [Pool.tokens, Pool.phaseOK] at *
  subst hnp
  unfold stepMain at h
  cases main with
  | spawn i =>
    simp only at h hph
    obtain ⟨hi0, hlen, himax, hjc, hclo⟩ := hph
    subst hjc hclo
    by_cases hlt : i < c.concurrent
    · rw [if_pos hlt] at h
      cases h
      refine ⟨?_, hcj, hcr, rfl, ?_, ?_, ?_, ?_, ?_, ?_⟩
      · intro a; have := htok a; simp [Pool.tokens] at this ⊢; omega
      · simp [hwg]
      · unfold Pool.phaseOK
        refine ⟨by omega, by simp; omega, by omega, rfl, rfl⟩
      · simp
      · simpa using hrc
      · simp only [List.countP_append, List.length_append]
        intro hh
        simp at hh
        exact hex (by omega)
      · simp
    · rw [if_neg hlt] at h
      cases h
      refine ⟨?_, hcj, hcr, rfl, hwg, ?_, hcl, hrc, hex, ?_⟩
      · intro a; have := htok a; simpa [Pool.tokens] using this
      · unfold Pool.phaseOK
        refine ⟨?_, rfl, rfl⟩
        show workers.length = c.concurrent.toNat
        omega
      · simpa using hnw
  | send rest =>
    simp only at hph
    obtain ⟨hlen, hjc, hclo⟩ := hph
    subst hjc hclo
    cases rest with
    | nil =>
      simp at h
      cases h
      refine ⟨?_, hcj, hcr, rfl, hwg, ?_, hcl, hrc, ?_, ?_⟩
      · intro a; have := htok a; simpa [Pool.tokens] using this
      · unfold Pool.phaseOK; exact ⟨hlen, rfl, rfl⟩
      · intro hh
        have := hex hh
        simp at this
      · simpa using hnw
    | cons d rest =>
      simp at h
      obtain ⟨hlt, h⟩ := h
      cases h
      refine ⟨?_, hcj, hcr, rfl, hwg, ?_, hcl, hrc, ?_, ?_⟩
      · intro a; have := htok a; simp [Pool.tokens, List.count_cons] at this ⊢; omega
      · unfold Pool.phaseOK; exact ⟨hlen, rfl, rfl⟩
      · intro hh
        have := hex hh
        simp at this
      · simpa using hnw
  | startCloser =>
    simp only at hph
    obtain ⟨hlen, hjc, hclo⟩ := hph
    subst hjc hclo
    simp at h
    cases h
    refine ⟨?_, hcj, hcr, rfl, hwg, ?_, ?_, ?_, hex, ?_⟩
    · intro a; have := htok a; simpa [Pool.tokens] using this
    · unfold Pool.phaseOK; exact ⟨hlen, rfl, by simp⟩
    · simp
    · simpa using hrc
    · simpa using hnw
  | collect certs =>
    simp only at hph
    obtain ⟨hlen, hjc, hclo⟩ := hph
    subst hjc
    cases rbuf with
    | nil =>
      simp at h
      obtain ⟨hrcl, h⟩ := h
      cases h
      subst hrcl
      refine ⟨?_, hcj, hcr, rfl, hwg, ?_, hcl, hrc, hex, ?_⟩
      · intro a; have := htok a; simpa [Pool.tokens] using this
      · unfold Pool.phaseOK; exact ⟨hlen, rfl, by simpa using hrc, rfl, rfl⟩
      · simpa using hnw
    | cons r rbuf =>
      simp at h
      cases h
      refine ⟨?_, hcj, hcr, rfl, hwg, ?_, hcl, hrc, hex, ?_⟩
      · intro a; have := htok a; simp [Pool.tokens, List.count_cons] at this ⊢; omega
      · unfold Pool.phaseOK; exact ⟨hlen, rfl, hclo⟩
      · intro hw; have := hnw hw; simp at this
  | returned certs err => simp at h

theorem Inv_stepCloser (c : SSLChecker) (domains : List String) (s t : Pool)
    (hI : s.Inv c domains) (h : stepCloser s = some t) : t.Inv c domains := by
  obtain ⟨main, ⟨jbuf, jcap, jclosed⟩, ⟨rbuf, rcap, rclosed⟩, wg, workers, closer, panicked⟩ := s
  obtain ⟨htok, hcj, hcr, hnp, hwg, hph, hcl, hrc, hex, hnw⟩ := hI
  simp only at *
  subst hnp
  unfold stepCloser at h
  cases closer with
  | notStarted => simp at h
  | exited => simp at h
  | waiting =>
    simp at h
    obtain ⟨hw0, h⟩ := h
    cases h
    refine ⟨htok, hcj, hcr, rfl, hwg, ?_, fun _ => hw0, ?_, hex, hnw⟩
    · unfold Pool.phaseOK at hph ⊢
      cases main <;> simp_all
    · simpa using hrc
  | closing =>
    have hrf : rclosed = false := by
      cases rclosed with
      | false => rfl
      | true => simp at hrc
    subst hrf
    simp at h
    cases h
    refine ⟨htok, hcj, hcr, rfl, hwg, ?_, fun _ => hcl (Or.inl rfl), by simp, hex, hnw⟩
    unfold Pool.phaseOK at hph ⊢
    cases main <;> simp_all

theorem DetermineStatus_Domain (now : time.Time) (x : Certificate) (T : Int) :
    (x.DetermineStatus now T).Domain = x.Domain := by
  unfold Certificate.DetermineStatus
  simp only
  split_ifs <;> rfl

theorem checkDomain_Domain (c : SSLChecker) (env : ProbeEnv) (domain : String) (T : Int) :
    (c.checkDomain env domain T).Domain = domain := by
  unfold SSLChecker.checkDomain
  simp only
  split
  · rw [DetermineStatus_Domain]
  · split_ifs
    · rw [DetermineStatus_Domain]
    · split <;> rw [DetermineStatus_Domain]

theorem phaseOK_workers (c : SSLChecker) (s t : Pool) (h : s.phaseOK c)
    (hm : t.main = s.main) (hl : t.workers.length = s.workers.length)
    (hj : t.jobs.closed = s.jobs.closed) (hc : t.closer = s.closer)
    (hr : s.closer = .exited → s.results.buf = [] → t.results.buf = []) : t.phaseOK c := by
  unfold Pool.phaseOK at h ⊢
  rw [hm]
  cases hmain : s.main <;> simp only [hmain] at h ⊢ <;> simp_all

theorem Inv_stepWorker (c : SSLChecker) (domains : List String) (threshold : Int) (s t : Pool)
    (i : Nat) (env : ProbeEnv)
    (hI : s.Inv c domains) (h : stepWorker c threshold s i env = some t) : t.Inv c domains := by
  obtain ⟨main, ⟨jbuf, jcap, jclosed⟩, ⟨rbuf, rcap, rclosed⟩, wg, workers, closer, panicked⟩ := s
  obtain ⟨htok, hcj, hcr, hnp, hwg, hph, hcl, hrc, hex, hnw⟩ := hI
  simp only [Pool.tokens] at *
  subst hnp
  unfold stepWorker at h
  simp only at h
  cases hw : workers[i]? with
  | none => simp [hw] at h
  | some w =>
    obtain ⟨l1, l2, rfl, hset⟩ := getElem?_split workers i w hw
    rw [hw] at h
    cases w with
    | exited => simp at h
    | checking d =>
      simp only [hset, Option.some.injEq] at h
      cases h
      refine ⟨?_, hcj, hcr, rfl, ?_, ?_, hcl, hrc, ?_, ?_⟩
      · intro a; have := htok a
        simp [Pool.tokens, List.count_cons, checkDomain_Domain] at this ⊢; omega
      · simpa using hwg
      · exact phaseOK_workers c _ _ hph rfl (by simp) rfl rfl (fun _ h => h)
      · simpa using hex
      · simp
    | receiving =>
      cases jbuf with
      | cons d rest =>
        simp only [hset, Option.some.injEq] at h
        cases h
        refine ⟨?_, hcj, hcr, rfl, ?_, ?_, hcl, hrc, ?_, ?_⟩
        · intro a; have := htok a
          simp [Pool.tokens, List.count_cons] at this ⊢; omega
        · simpa using hwg
        · exact phaseOK_workers c _ _ hph rfl (by simp) rfl rfl (fun _ h => h)
        · intro hh
          have := hex (by simpa using hh)
          simp at this
        · simp
      | nil =>
        simp only [hset] at h
        by_cases hjc : jclosed = true
        · subst hjc
          simp only [if_true] at h
          have hwg1 : ¬ (wg - 1 < 0) := by
            simp at hwg; omega
          rw [if_neg hwg1] at h
          cases h
          refine ⟨?_, hcj, hcr, rfl, ?_, ?_, ?_, hrc, ?_, ?_⟩
          · intro a; have := htok a
            simpa [Pool.tokens, List.count_cons] using this
          · simp at hwg ⊢; omega
          · exact phaseOK_workers c _ _ hph rfl (by simp) rfl rfl (fun _ h => h)
          · intro hh
            have := hcl hh
            simp at hwg; omega
          · intro _; exact ⟨rfl, rfl⟩
          · simp
        · simp [hjc] at h
    | sending cert =>
      simp only [hset] at h
      by_cases hrcl : rclosed = true
      · exfalso
        have h1 := hrc.mp hrcl
        have h2 := hcl (Or.inr h1)
        simp at hwg; omega
      · have hrf : rclosed = false := by simpa using hrcl
        subst hrf
        simp at h
        obtain ⟨hlt, h⟩ := h
        cases h
        refine ⟨?_, hcj, hcr, rfl, ?_, ?_, hcl, hrc, ?_, ?_⟩
        · intro a; have := htok a
          simp [Pool.tokens, List.count_cons] at this ⊢; omega
        · simpa using hwg
        · refine phaseOK_workers c _ _ hph rfl (by simp) rfl rfl (fun h _ => ?_)
          exfalso
          have h2 := hcl (Or.inr h)
          simp at hwg; omega
        · simpa using hex
        · simp

theorem Inv_step (c : SSLChecker) (domains : List String) (threshold : Int) (s t : Pool)
    (m : Move) (hI : s.Inv c domains) (h : step c domains threshold s m = some t) :
    t.Inv c domains := by
  have hp := hI.noPanic
  cases m with
  | main =>
    simp only [step, hp] at h
    exact Inv_stepMain c domains s t hI h
  | worker i env =>
    simp only [step, hp] at h
    exact Inv_stepWorker c domains threshold s t i env hI h
  | closer =>
    simp only [step, hp] at h
    exact Inv_stepCloser c domains s t hI h

theorem Inv_run (c : SSLChecker) (domains : List String) (threshold : Int) (sched : List Move) :
    ∀ s t : Pool, s.Inv c domains → run c domains threshold s sched = some t →
      t.Inv c domains := by
  induction sched with
  | nil =>
    intro s t hI h
    simp [run] at h
    exact h ▸ hI
  | cons m ms ih =>
    intro s t hI h
    unfold run at h
    cases hs : step c domains threshold s m with
    | none => simp [hs] at h
    | some u =>
      simp only [hs] at h
      exact ih u t (Inv_step c domains threshold s u m hI hs) h

theorem measure_step (c : SSLChecker) (domains : List String) (threshold : Int) (s t : Pool)
    (m : Move) (h : step c domains threshold s m = some t) :
    t.measure c domains < s.measure c domains := by
  obtain ⟨main, ⟨jbuf, jcap, jclosed⟩, ⟨rbuf, rcap, rclosed⟩, wg, workers, closer, panicked⟩ := s
  cases panicked with
  | true => cases m <;> simp [step] at h
  | false =>
    cases m with
    | main =>
      simp only [step, Bool.false_eq_true, if_false] at h
      unfold stepMain at h
      cases main with
      | spawn i =>
        simp only at h
        split_ifs at h with hlt
        · cases h
          simp [Pool.measure]
          omega
        · cases h
          simp [Pool.measure]
          omega
      | send rest =>
        cases rest with
        | nil =>
          simp only at h
          split_ifs at h <;> cases h <;> simp [Pool.measure]
        | cons d rest =>
          simp only at h
          split_ifs at h <;> cases h <;> simp [Pool.measure] <;> omega
      | startCloser =>
        simp only [Option.some.injEq] at h
        cases h
        cases closer <;> simp [Pool.measure] <;> omega
      | collect certs =>
        cases rbuf with
        | nil =>
          simp only at h
          split_ifs at h
          cases h
          simp [Pool.measure]
        | cons r rbuf =>
          simp only [Option.some.injEq] at h
          cases h
          simp [Pool.measure]
      | returned certs err => simp at h
    | closer =>
      simp only [step, Bool.false_eq_true, if_false] at h
      unfold stepCloser at h
      cases closer with
      | notStarted => simp at h
      | exited => simp at h
      | waiting =>
        simp only at h
        split_ifs at h
        cases h
        simp [Pool.measure]
      | closing =>
        simp only at h
        split_ifs at h <;> cases h <;> simp [Pool.measure]
    | worker i env =>
      simp only [step, Bool.false_eq_true, if_false] at h
      unfold stepWorker at h
      simp only at h
      cases hw : workers[i]? with
      | none => simp [hw] at h
      | some w =>
        obtain ⟨l1, l2, rfl, hset⟩ := getElem?_split workers i w hw
        rw [hw] at h
        cases w with
        | exited => simp at h
        | checking d =>
          simp only [hset, Option.some.injEq] at h
          cases h
          simp [Pool.measure]
        | receiving =>
          cases jbuf with
          | cons d rest =>
            simp only [hset, Option.some.injEq] at h
            cases h
            simp [Pool.measure]
            omega
          | nil =>
            simp only [hset] at h
            split_ifs at h <;> cases h <;> simp [Pool.measure]
        | sending cert =>
          simp only [hset] at h
          split_ifs at h <;> cases h <;> simp [Pool.measure] <;> omega

theorem run_length (c : SSLChecker) (domains : List String) (threshold : Int)
    (sched : List Move) :
    ∀ s t : Pool, run c domains threshold s sched = some t →
      sched.length + t.measure c domains ≤ s.measure c domains := by
  induction sched with
  | nil =>
    intro s t h
    simp [run] at h
    subst h
    simp
  | cons m ms ih =>
    intro s t h
    unfold run at h
    cases hs : step c domains threshold s m with
    | none => simp [hs] at h
    | some u =>
      simp only [hs] at h
      have h1 := ih u t h
      have h2 := measure_step c domains threshold s u m hs
      simp only [List.length_cons]
      omega

theorem run_append (c : SSLChecker) (domains : List String) (threshold : Int)
    (sched more : List Move) :
    ∀ s t : Pool, run c domains threshold s sched = some t →
      run c domains threshold s (sched ++ more) = run c domains threshold t more := by
  induction sched with
  | nil =>
    intro s t h
    simp [run] at h
    subst h
    rfl
  | cons m ms ih =>
    intro s t h
    unfold run at h
    cases hs : step c domains threshold s m with
    | none => simp [hs] at h
    | some u =>
      simp only [hs] at h
      simp only [List.cons_append, run, hs]
      exact ih u t h

theorem tokens_length (c : SSLChecker) (domains : List String) (s : Pool)
    (hI : s.Inv c domains) : (s.tokens domains).length = domains.length :=
  (List.perm_iff_count.mpr hI.tokens).length_eq

theorem exists_alive (ws : List Worker) (h : ws.countP Worker.alive ≠ 0) :
    ∃ (i : Nat) (w : Worker), ws[i]? = some w ∧ w.alive = true := by
  have hpos : 0 < ws.countP Worker.alive := Nat.pos_of_ne_zero h
  obtain ⟨w, hmem, hw⟩ := List.countP_pos_iff.mp hpos
  obtain ⟨i, hi, rfl⟩ := List.getElem_of_mem hmem
  exact ⟨i, ws[i], List.getElem?_eq_getElem hi, hw⟩

/-- A pool satisfying the invariant has returned or has an enabled move. -/
theorem progress (c : SSLChecker) (domains : List String) (threshold : Int) (s : Pool)
    (hI : s.Inv c domains) :
    (∃ certs err, s.main = .returned certs err) ∨
      ∃ m t, step c domains threshold s m = some t := by
  have hlen := tokens_length c domains s hI
  obtain ⟨main, ⟨jbuf, jcap, jclosed⟩, ⟨rbuf, rcap, rclosed⟩, wg, workers, closer, panicked⟩ := s
  obtain ⟨htok, hcj, hcr, hnp, hwg, hph, hcl, hrc, hex, hnw⟩ := hI
  simp only [Pool.tokens] at *
  subst hnp hcj hcr
  cases main with
  | returned certs err => exact Or.inl ⟨certs, err, rfl⟩
  | spawn i =>
    refine Or.inr ⟨.main, ?_⟩
    simp only [step, stepMain, Bool.false_eq_true, if_false]
    split_ifs <;> exact ⟨_, rfl⟩
  | startCloser => exact Or.inr ⟨.main, _, rfl⟩
  | send rest =>
    unfold Pool.phaseOK at hph
    simp only at hph
    obtain ⟨_, hjc, _⟩ := hph
    subst hjc
    refine Or.inr ⟨.main, ?_⟩
    cases rest with
    | nil => exact ⟨_, rfl⟩
    | cons d rest =>
      have hlt : jbuf.length < domains.length := by
        simp at hlen; omega
      simp [step, stepMain, hlt]
  | collect certs =>
    unfold Pool.phaseOK at hph
    simp only at hph
    obtain ⟨_, hjc, hclo⟩ := hph
    subst hjc
    cases rbuf with
    | cons r rbuf => exact Or.inr ⟨.main, _, rfl⟩
    | nil =>
      cases rclosed with
      | true => exact Or.inr ⟨.main, _, rfl⟩
      | false =>
        cases closer with
        | notStarted => exact absurd rfl hclo
        | exited => simp at hrc
        | closing => exact Or.inr ⟨.closer, _, rfl⟩
        | waiting =>
          by_cases hw0 : wg = 0
          · refine Or.inr ⟨.closer, ?_⟩
            simp [step, stepCloser, hw0]
          · have hne : workers.countP Worker.alive ≠ 0 := by
              intro h0; rw [h0] at hwg; exact hw0 (by simpa using hwg)
            obtain ⟨i, w, hiw, hal⟩ := exists_alive workers hne
            obtain ⟨l1, l2, rfl, hset⟩ := getElem?_split workers i w hiw
            refine Or.inr ⟨.worker i ⟨false, fun _ _ _ _ => .failed "", false, 0⟩, ?_⟩
            cases w with
            | exited => simp at hal
            | checking d => simp [step, stepWorker, hiw]
            | receiving =>
              cases jbuf with
              | cons d rest => simp [step, stepWorker, hiw]
              | nil =>
                simp only [step, stepWorker, hiw, Bool.false_eq_true, if_false, if_true]
                split_ifs <;> exact ⟨_, rfl⟩
            | sending cert =>
              have hlt : 0 < domains.length := by
                simp at hlen; omega
              simp [step, stepWorker, hiw, hlt]

/-- From a pool satisfying the invariant the call returns after finitely many
further moves. -/
theorem completes (c : SSLChecker) (domains : List String) (threshold : Int) (n : Nat) :
    ∀ s : Pool, s.measure c domains ≤ n → s.Inv c domains →
      ∃ more t certs err, run c domains threshold s more = some t ∧
        t.main = .returned certs err := by
  induction n with
  | zero =>
    intro s hm hI
    rcases progress c domains threshold s hI with ⟨certs, err, h⟩ | ⟨m, t, h⟩
    · exact ⟨[], s, certs, err, rfl, h⟩
    · have := measure_step c domains threshold s t m h
      omega
  | succ n ih =>
    intro s hm hI
    rcases progress c domains threshold s hI with ⟨certs, err, h⟩ | ⟨m, t, h⟩
    · exact ⟨[], s, certs, err, rfl, h⟩
    · have hlt := measure_step c domains threshold s t m h
      obtain ⟨more, u, certs, err, hrun, hret⟩ :=
        ih t (by omega) (Inv_step c domains threshold s t m hI h)
      refine ⟨m :: more, u, certs, err, ?_, hret⟩
      simp only [run, h]
      exact hrun

theorem held_of_none_alive (ws : List Worker) (h : ws.countP Worker.alive = 0) :
    ws.flatMap Worker.held = [] := by
  induction ws with
  | nil => rfl
  | cons w ws ih =>
    rw [List.countP_cons] at h
    have h1 : ws.countP Worker.alive = 0 := by omega
    have h2 : w = .exited := by
      cases w <;> simp at h <;> rfl
    subst h2
    simpa using ih h1

/-- What a returned pool holds: no error; with at least one worker configured
the collected domains are a rearrangement of the input, with none configured
nothing was collected. -/
theorem returned_result (c : SSLChecker) (domains : List String) (s : Pool)
    (certs : List Certificate) (err : Option String)
    (hI : s.Inv c domains) (hret : s.main = .returned certs err) :
    err = none ∧
    (1 ≤ c.concurrent → (certs.map (fun cert => cert.Domain)).Perm domains) ∧
    (c.concurrent ≤ 0 → certs = []) := by
  obtain ⟨main, ⟨jbuf, jcap, jclosed⟩, ⟨rbuf, rcap, rclosed⟩, wg, workers, closer, panicked⟩ := s
  obtain ⟨htok, hcj, hcr, hnp, hwg, hph, hcl, hrc, hex, hnw⟩ := hI
  simp only at hret
  subst hret
  unfold Pool.phaseOK at hph
  simp only at hph hcl hwg hex hnw
  obtain ⟨hlen, hjc, hclo, herr, hrb⟩ := hph
  subst hclo herr hrb
  have hw0 : wg = 0 := hcl (Or.inr rfl)
  have hcnt : workers.countP Worker.alive = 0 := by
    rw [hw0] at hwg; exact_mod_cast hwg.symm
  have hheld := held_of_none_alive workers hcnt
  refine ⟨rfl, ?_, ?_⟩
  · intro hC
    have hpos : workers.countP Worker.alive < workers.length := by omega
    obtain ⟨_, hjb⟩ := hex hpos
    subst hjb
    apply List.perm_iff_count.mpr
    intro a
    have := htok a
    simpa [Pool.tokens, hheld] using this
  · intro hC
    have hnil : workers = [] := List.length_eq_zero.mp (by omega)
    exact (hnw hnil).2

/-- The number of worker goroutines never exceeds the configured concurrency. -/
theorem workers_le (c : SSLChecker) (domains : List String) (s : Pool)
    (hI : s.Inv c domains) : s.workers.length ≤ c.concurrent.toNat := by
  have hph := hI.phase
  unfold Pool.phaseOK at hph
  cases hm : s.main <;> simp only [hm] at hph <;> omega

theorem CheckDomains_eq_some (c : SSLChecker) (sched : List Move) (domains : List String)
    (threshold : Int) (certs : List Certificate) (err : Option String)
    (h : c.CheckDomains sched domains threshold = some (certs, err)) :
    ∃ s, run c domains threshold (start domains) sched = some s ∧
      s.main = .returned certs err := by
  unfold SSLChecker.CheckDomains at h
  cases hr : run c domains threshold (start domains) sched with
  | none => simp [hr] at h
  | some s =>
    simp only [hr] at h
    cases hm : s.main <;> simp [hm] at h
    exact ⟨s, rfl, by rw [hm, h.1, h.2]⟩

theorem CheckDomains_of_run (c : SSLChecker) (sched : List Move) (domains : List String)
    (threshold : Int) (s : Pool) (certs : List Certificate) (err : Option String)
    (hr : run c domains threshold (start domains) sched = some s)
    (hm : s.main = .returned certs err) :
    c.CheckDomains sched domains threshold = some (certs, err) := by
  unfold SSLChecker.CheckDomains
  simp [hr, hm]

/-- Every partial run from the start state extends to a run on which the call
returns. -/
theorem extends_to_return (c : SSLChecker) (domains : List String) (threshold : Int)
    (hN : 1 ≤ domains.length) (sched : List Move) (s : Pool)
    (hr : run c domains threshold (start domains) sched = some s) :
    ∃ more certs err, c.CheckDomains (sched ++ more) domains threshold = some (certs, err) := by
  have hI := Inv_run c domains threshold sched _ s (Inv_start c domains hN) hr
  obtain ⟨more, t, certs, err, hrun, hret⟩ :=
    completes c domains threshold (s.measure c domains) s (Nat.le_refl _) hI
  refine ⟨more, certs, err, CheckDomains_of_run c _ domains threshold t certs err ?_ hret⟩
  rw [run_append c domains threshold sched more _ s hr]
  exact hrun

/-- C3: for a domain list of length `N ≥ 1` (duplicates allowed) and concurrency
`C ≥ 1`, whenever `CheckDomains` returns it returns no error and exactly `N`
records whose domains form the same multiset as the input; and it does return:
no interleaving panics, every interleaving has at most `2C + 5N + 7` moves, and
every partial run extends to one on which the call has returned. -/
theorem C3_CheckDomains_one_record_per_domain (c : SSLChecker) (domains : List String)
    (threshold : Int) (hN : 1 ≤ domains.length) (hC : 1 ≤ c.concurrent) :
    (∀ sched certs err, c.CheckDomains sched domains threshold = some (certs, err) →
      err = none ∧ certs.length = domains.length ∧
      (((certs.map (fun cert => cert.Domain) : List String) : Multiset String) =
        (domains : Multiset String))) ∧
    (∀ sched s, run c domains threshold (start domains) sched = some s →
      s.panicked = false ∧
      sched.length ≤ 2 * c.concurrent.toNat + 5 * domains.length + 7 ∧
      ∃ more certs err,
        c.CheckDomains (sched ++ more) domains threshold = some (certs, err)) := by
  constructor
  · intro sched certs err h
    obtain ⟨s, hr, hm⟩ := CheckDomains_eq_some c sched domains threshold certs err h
    have hI := Inv_run c domains threshold sched _ s (Inv_start c domains hN) hr
    obtain ⟨he, hp, _⟩ := returned_result c domains s certs err hI hm
    have hperm := hp hC
    refine ⟨he, ?_, Multiset.coe_eq_coe.mpr hperm⟩
    simpa using hperm.length_eq
  · intro sched s hr
    have hI := Inv_run c domains threshold sched _ s (Inv_start c domains hN) hr
    refine ⟨hI.noPanic, ?_, extends_to_return c domains threshold hN sched s hr⟩
    have hlen := run_length c domains threshold sched _ s hr
    have h0 : domains.length ≠ 0 := by omega
    have hst : (start domains).measure c domains =
        2 * c.concurrent.toNat + 5 * domains.length + 7 := by
      unfold start
      rw [if_neg h0]
      simp [Pool.measure, Chan.make]
    omega

theorem C3_CheckDomains_one_record_per_domain_witness :
    1 ≤ ["a.example", "b.example", "a.example"].length ∧ 1 ≤ twoWorkerChecker.concurrent ∧
    ∃ certs, twoWorkerChecker.CheckDomains twoWorkerSchedule
        ["a.example", "b.example", "a.example"] 30 = some (certs, none) ∧
      certs.length = ["a.example", "b.example", "a.example"].length ∧
      (((certs.map (fun cert => cert.Domain) : List String) : Multiset String) =
        (["a.example", "b.example", "a.example"] : Multiset String)) := by
  have h := (C3_CheckDomains_one_record_per_domain twoWorkerChecker
    ["a.example", "b.example", "a.example"] 30 (by decide) (by decide)).1 twoWorkerSchedule
  have hsome : (twoWorkerChecker.CheckDomains twoWorkerSchedule
      ["a.example", "b.example", "a.example"] 30).isSome = true := by decide
  cases hres : twoWorkerChecker.CheckDomains twoWorkerSchedule
      ["a.example", "b.example", "a.example"] 30 with
  | none => rw [hres] at hsome; cases hsome
  | some r =>
    obtain ⟨certs, err⟩ := r
    obtain ⟨he, hl, hm⟩ := h certs err hres
    subst he
    exact ⟨by decide, by decide, certs, rfl, hl, hm⟩

/-- C4, as stated, fails: with concurrency 0 and the one-element list
"example.com" the call returns no record at all, and no error. -/
theorem C4_counterexample :
    noWorkerChecker.CheckDomains noWorkerSchedule ["example.com"] 30 = some ([], none) ∧
    ([] : List Certificate).length ≠ ["example.com"].length := by
  decide

theorem workers_count (c : SSLChecker) (domains : List String) (s : Pool)
    (hI : s.Inv c domains) :
    (∀ i, s.main = .spawn i → (s.workers.length : Int) = i ∧ i ≤ max c.concurrent 0) ∧
    (s.main.spawning = false → s.workers.length = c.concurrent.toNat) := by
  have hph := hI.phase
  unfold Pool.phaseOK at hph
  cases hm : s.main <;> simp only [hm] at hph <;>
    simp [Main.spawning, hph]
  exact le_max_iff.mp hph.2.2.1

/-- C4 (amended): `CheckDomains` does not clamp the worker count. For a
non-empty domain list the spawning loop at counter `i` has started exactly `i`
workers, with `i` at most `concurrent` (or 0 when `concurrent` is negative);
once the loop is left there are exactly `concurrent` workers, none when
`concurrent ≤ 0`; every partial run extends to one on which the call returns,
and the call returns no error, with `N` records when `concurrent ≥ 1` and with
no record when `concurrent ≤ 0`. -/
theorem C4_CheckDomains_no_clamp (c : SSLChecker) (domains : List String) (threshold : Int)
    (hN : 1 ≤ domains.length) :
    (∀ sched s, run c domains threshold (start domains) sched = some s →
      s.workers.length ≤ c.concurrent.toNat ∧
      (∀ i, s.main = .spawn i → (s.workers.length : Int) = i ∧ i ≤ max c.concurrent 0) ∧
      (s.main.spawning = false → s.workers.length = c.concurrent.toNat) ∧
      ∃ more certs err,
        c.CheckDomains (sched ++ more) domains threshold = some (certs, err)) ∧
    (∀ sched certs err, c.CheckDomains sched domains threshold = some (certs, err) →
      err = none ∧ (1 ≤ c.concurrent → certs.length = domains.length) ∧
      (c.concurrent ≤ 0 → certs = [])) := by
  constructor
  · intro sched s hr
    have hI := Inv_run c domains threshold sched _ s (Inv_start c domains hN) hr
    exact ⟨workers_le c domains s hI, (workers_count c domains s hI).1,
      (workers_count c domains s hI).2, extends_to_return c domains threshold hN sched s hr⟩
  · intro sched certs err h
    obtain ⟨s, hr, hm⟩ := CheckDomains_eq_some c sched domains threshold certs err h
    have hI := Inv_run c domains threshold sched _ s (Inv_start c domains hN) hr
    obtain ⟨he, hp, hz⟩ := returned_result c domains s certs err hI hm
    refine ⟨he, fun hC => ?_, hz⟩
    simpa using (hp hC).length_eq

theorem C4_CheckDomains_no_clamp_witness :
    1 ≤ ["example.com"].length ∧
    (start ["example.com"]).workers.length ≤ noWorkerChecker.concurrent.toNat ∧
    (∃ more certs err, noWorkerChecker.CheckDomains ([] ++ more) ["example.com"] 30 =
      some (certs, err)) ∧
    1 ≤ ["a.example", "b.example", "a.example"].length ∧
    (∃ s, run twoWorkerChecker ["a.example", "b.example", "a.example"] 30
        (start ["a.example", "b.example", "a.example"]) twoWorkerSchedule = some s ∧
      s.main.spawning = false ∧ s.workers.length = 2) ∧
    (∃ s, run noWorkerChecker ["example.com"] 30 (start ["example.com"]) noWorkerSchedule =
        some s ∧ s.main.spawning = false ∧ s.workers.length = 0) := by
  have w0 := (C4_CheckDomains_no_clamp noWorkerChecker ["example.com"] 30 (by decide)).1
  have w2 := (C4_CheckDomains_no_clamp twoWorkerChecker
    ["a.example", "b.example", "a.example"] 30 (by decide)).1
  refine ⟨by decide, (w0 [] (start ["example.com"]) rfl).1,
    (w0 [] (start ["example.com"]) rfl).2.2.2, by decide, ?_, ?_⟩
  · have hsp : (run twoWorkerChecker ["a.example", "b.example", "a.example"] 30
        (start ["a.example", "b.example", "a.example"]) twoWorkerSchedule).map
        (fun s => s.main.spawning) = some false := by decide
    cases hres : run twoWorkerChecker ["a.example", "b.example", "a.example"] 30
        (start ["a.example", "b.example", "a.example"]) twoWorkerSchedule with
    | none => rw [hres] at hsp; cases hsp
    | some s =>
      rw [hres] at hsp
      have hs : s.main.spawning = false := by simpa using hsp
      exact ⟨s, rfl, hs, (w2 twoWorkerSchedule s hres).2.2.1 hs⟩
  · have hsp : (run noWorkerChecker ["example.com"] 30 (start ["example.com"])
        noWorkerSchedule).map (fun s => s.main.spawning) = some false := by decide
    cases hres : run noWorkerChecker ["example.com"] 30 (start ["example.com"])
        noWorkerSchedule with
    | none => rw [hres] at hsp; cases hsp
    | some s =>
      rw [hres] at hsp
      have hs : s.main.spawning = false := by simpa using hsp
      exact ⟨s, rfl, hs, (w0 noWorkerSchedule s hres).2.2.1 hs⟩

/-- C5: for every checker (timeout and concurrency) and threshold, `CheckDomains`
on the empty list has returned before any goroutine moves, with no records and
the error "no domains to check"; no move is possible afterwards, so no worker
exists and no domain is probed. -/
theorem C5_CheckDomains_empty_list (c : SSLChecker) (threshold : Int) :
    c.CheckDomains [] [] threshold = some ([], some "no domains to check") ∧
    (∀ m, step c [] threshold (start []) m = none) ∧
    (∀ sched r, c.CheckDomains sched [] threshold = some r →
      r = ([], some "no domains to check")) := by
  have hstep : ∀ m, step c [] threshold (start []) m = none := by
    intro m
    cases m <;> simp [step, start, stepMain, stepWorker, stepCloser]
  refine ⟨rfl, hstep, ?_⟩
  intro sched r h
  cases sched with
  | nil =>
    simp [SSLChecker.CheckDomains, run, start] at h
    exact h.symm
  | cons m ms =>
    simp [SSLChecker.CheckDomains, run, hstep m] at h

end checker

/-! ## binary64 rounding: monotone, and exact on integers -/

namespace float64

theorem log2Fuel_spec (fuel : Nat) : ∀ n : Nat, n ≤ fuel → n ≠ 0 →
    2 ^ log2Fuel fuel n ≤ n ∧ n < 2 ^ (log2Fuel fuel n + 1) := by
  induction fuel with
  | zero => intro n h1 h2; omega
  | succ f ih =>
    intro n h1 h2
    unfold log2Fuel
    by_cases h : n < 2
    · rw [if_pos h]
      have : n = 1 := by omega
      subst this
      simp
    · rw [if_neg h]
      obtain ⟨ha, hb⟩ := ih (n / 2) (by omega) (by omega)
      rw [Nat.pow_succ, Nat.pow_succ]
      constructor <;> omega

theorem ilog2_spec (n : Nat) (h : n ≠ 0) : 2 ^ ilog2 n ≤ n ∧ n < 2 ^ (ilog2 n + 1) :=
  log2Fuel_spec n n (Nat.le_refl n) h

theorem IsRne_mono {x y : ℚ} {a b : ℤ} (hx : IsRne x a) (hy : IsRne y b) (hxy : x ≤ y) :
    a ≤ b := by
  by_contra hlt
  push_neg at hlt
  have h1 : (b : ℚ) + 1 ≤ a := by exact_mod_cast hlt
  obtain ⟨_, ha2, ha3⟩ := hx
  obtain ⟨hb1, _, hb3⟩ := hy
  have hea : (a : ℚ) = x + 1 / 2 := by linarith
  have heb : (b : ℚ) = y - 1 / 2 := by linarith
  have hab : a = b + 1 := by
    have : (a : ℚ) = b + 1 := by linarith
    exact_mod_cast this
  have h2 := ha3 (Or.inr hea)
  have h3 := hb3 (Or.inl heb)
  rw [hab, Int.even_add_one] at h2
  exact h2 h3

theorem rneDiv_spec (n d : Nat) (hd : 0 < d) : IsRne ((n : ℚ) / d) (rneDiv n d) := by
  have hdq : (0 : ℚ) < d := by exact_mod_cast hd
  have hn : (n : ℚ) = d * (n / d : ℕ) + (n % d : ℕ) := by
    exact_mod_cast (Nat.div_add_mod n d).symm
  have hx : (n : ℚ) / d = (n / d : ℕ) + ((n % d : ℕ) : ℚ) / d := by
    rw [hn]; field_simp; ring
  have hr : n % d < d := Nat.mod_lt n hd
  set q := n / d with hq
  set r := n % d with hr'
  set ρ : ℚ := (r : ℚ) / d with hρ
  have hρ0 : 0 ≤ ρ := by positivity
  unfold rneDiv
  rw [hx]
  simp only [← hq, ← hr']
  by_cases h1 : 2 * r < d
  · rw [if_pos h1]
    have : ρ < 1 / 2 := by
      rw [hρ, div_lt_iff₀ hdq]
      have : (2 : ℚ) * r < d := by exact_mod_cast h1
      linarith
    refine ⟨by push_cast; linarith, by push_cast; linarith, ?_⟩
    rintro (h | h) <;> push_cast at h <;> linarith
  · rw [if_neg h1]
    by_cases h2 : d < 2 * r
    · rw [if_pos h2]
      have h3 : 1 / 2 < ρ := by
        rw [hρ, lt_div_iff₀ hdq]
        have : (d : ℚ) < 2 * r := by exact_mod_cast h2
        linarith
      have h4 : ρ < 1 := by
        rw [hρ, div_lt_iff₀ hdq]
        have : (r : ℚ) < d := by exact_mod_cast hr
        linarith
      refine ⟨by push_cast; linarith, by push_cast; linarith, ?_⟩
      rintro (h | h) <;> push_cast at h <;> linarith
    · rw [if_neg h2]
      have h3 : ρ = 1 / 2 := by
        rw [hρ, div_eq_iff hdq.ne']
        have : (d : ℚ) = 2 * r := by exact_mod_cast (by omega : d = 2 * r)
        linarith
      by_cases h4 : q % 2 = 0
      · rw [if_pos h4]
        refine ⟨by push_cast; linarith, by push_cast; linarith, ?_⟩
        intro _
        exact (Int.even_coe_nat q).mpr (Nat.even_iff.mpr h4)
      · rw [if_neg h4]
        refine ⟨by push_cast; linarith, by push_cast; linarith, ?_⟩
        intro _
        have : Even (q + 1) := by
          rw [Nat.even_add_one, Nat.even_iff]; exact h4
        exact_mod_cast (Int.even_coe_nat (q + 1)).mpr this

theorem two_zpow_pos (e : ℤ) : (0 : ℚ) < 2 ^ e := zpow_pos (by norm_num) e

theorem ilog2Frac_spec (n d : Nat) (hn : 0 < n) (hd : 0 < d) :
    (2 : ℚ) ^ ilog2Frac n d ≤ (n : ℚ) / d ∧ (n : ℚ) / d < 2 ^ (ilog2Frac n d + 1) := by
  obtain ⟨ha1, ha2⟩ := ilog2_spec n (by omega)
  obtain ⟨hb1, hb2⟩ := ilog2_spec d (by omega)
  have hdq : (0 : ℚ) < d := by exact_mod_cast hd
  have hA : (0 : ℚ) < 2 ^ ilog2 n := by positivity
  have hB : (0 : ℚ) < 2 ^ ilog2 d := by positivity
  have ha1q : (2 : ℚ) ^ ilog2 n ≤ n := by exact_mod_cast ha1
  have ha2q : (n : ℚ) < 2 * 2 ^ ilog2 n := by
    have : (n : ℚ) < 2 ^ (ilog2 n + 1) := by exact_mod_cast ha2
    rw [pow_succ] at this; linarith
  have hb1q : (2 : ℚ) ^ ilog2 d ≤ d := by exact_mod_cast hb1
  have hb2q : (d : ℚ) < 2 * 2 ^ ilog2 d := by
    have : (d : ℚ) < 2 ^ (ilog2 d + 1) := by exact_mod_cast hb2
    rw [pow_succ] at this; linarith
  have h2 : (2 : ℚ) ≠ 0 := by norm_num
  have e1 : (2 : ℚ) ^ ((ilog2 n : ℤ) - ilog2 d) = 2 ^ ilog2 n / 2 ^ ilog2 d := by
    rw [zpow_sub₀ h2, zpow_natCast, zpow_natCast]
  have e2 : (2 : ℚ) ^ ((ilog2 n : ℤ) - ilog2 d + 1) = 2 * 2 ^ ilog2 n / 2 ^ ilog2 d := by
    rw [zpow_add₀ h2, e1]; simp; ring
  have e3 : (2 : ℚ) ^ ((ilog2 n : ℤ) - ilog2 d - 1) = 2 ^ ilog2 n / (2 * 2 ^ ilog2 d) := by
    rw [zpow_sub₀ h2, e1]; simp; field_simp; ring
  unfold ilog2Frac
  by_cases hc : d * 2 ^ ilog2 n ≤ n * 2 ^ ilog2 d
  · rw [if_pos hc]
    have hcq : (d : ℚ) * 2 ^ ilog2 n ≤ n * 2 ^ ilog2 d := by exact_mod_cast hc
    rw [e1, e2]
    constructor
    · rw [div_le_div_iff hB hdq]; linarith
    · rw [div_lt_div_iff hdq hB]
      nlinarith
  · rw [if_neg hc]
    have hcq : (n : ℚ) * 2 ^ ilog2 d < d * 2 ^ ilog2 n := by
      have : n * 2 ^ ilog2 d < d * 2 ^ ilog2 n := by omega
      exact_mod_cast this
    have e4 : (ilog2 n : ℤ) - ilog2 d - 1 + 1 = (ilog2 n : ℤ) - ilog2 d := by ring
    rw [e4, e1, e3]
    constructor
    · rw [div_le_div_iff (by positivity) hdq]
      nlinarith
    · rw [div_lt_div_iff hdq hB]; linarith

theorem IsRoundPos_bounds {x r : ℚ} {e m : ℤ} (h1 : (2 : ℚ) ^ e ≤ x) (h2 : x < 2 ^ (e + 1))
    (hr : r = m * 2 ^ (e - 52)) (hm : IsRne (x * 2 ^ (52 - e)) m) :
    (2 : ℚ) ^ e ≤ r ∧ r ≤ 2 ^ (e + 1) := by
  have h2' : (2 : ℚ) ≠ 0 := by norm_num
  have hs : (0 : ℚ) < 2 ^ (52 - e) := two_zpow_pos _
  have ht : (0 : ℚ) < 2 ^ (e - 52) := two_zpow_pos _
  have k1 : (2 : ℚ) ^ e * 2 ^ (52 - e) = 2 ^ (52 : ℕ) := by
    rw [← zpow_add₀ h2', ← zpow_natCast]; congr 1; ring
  have k2 : (2 : ℚ) ^ (e + 1) * 2 ^ (52 - e) = 2 ^ (53 : ℕ) := by
    rw [← zpow_add₀ h2', ← zpow_natCast]; congr 1; ring
  have k3 : (2 : ℚ) ^ (52 : ℕ) * 2 ^ (e - 52) = 2 ^ e := by
    rw [← zpow_natCast, ← zpow_add₀ h2']; congr 1; ring
  have k4 : (2 : ℚ) ^ (53 : ℕ) * 2 ^ (e - 52) = 2 ^ (e + 1) := by
    rw [← zpow_natCast, ← zpow_add₀ h2']; congr 1; ring
  obtain ⟨hm1, hm2, _⟩ := hm
  have lo : (2 : ℚ) ^ (52 : ℕ) ≤ x * 2 ^ (52 - e) := by
    rw [← k1]; exact mul_le_mul_of_nonneg_right h1 hs.le
  have hi : x * 2 ^ (52 - e) < (2 : ℚ) ^ (53 : ℕ) := by
    rw [← k2]; exact mul_lt_mul_of_pos_right h2 hs
  have mlo : (2 : ℤ) ^ (52 : ℕ) ≤ m := by
    have : ((2 : ℤ) ^ (52 : ℕ) - 1 : ℤ) < m := by
      have : (((2 : ℤ) ^ (52 : ℕ) - 1 : ℤ) : ℚ) < m := by push_cast; linarith
      exact_mod_cast this
    omega
  have mhi : m ≤ (2 : ℤ) ^ (53 : ℕ) := by
    have : m < ((2 : ℤ) ^ (53 : ℕ) + 1 : ℤ) := by
      have : (m : ℚ) < (((2 : ℤ) ^ (53 : ℕ) + 1 : ℤ) : ℚ) := by push_cast; linarith
      exact_mod_cast this
    omega
  have mloq : (2 : ℚ) ^ (52 : ℕ) ≤ m := by exact_mod_cast mlo
  have mhiq : (m : ℚ) ≤ 2 ^ (53 : ℕ) := by exact_mod_cast mhi
  rw [hr, ← k3, ← k4]
  exact ⟨mul_le_mul_of_nonneg_right mloq ht.le, mul_le_mul_of_nonneg_right mhiq ht.le⟩

theorem IsRoundPos_pos {x r : ℚ} (h : IsRoundPos x r) : 0 < r := by
  obtain ⟨e, m, h1, h2, hr, hm⟩ := h
  exact lt_of_lt_of_le (two_zpow_pos e) (IsRoundPos_bounds h1 h2 hr hm).1

theorem IsRoundPos_mono {x y r t : ℚ} (hx : IsRoundPos x r) (hy : IsRoundPos y t)
    (hxy : x ≤ y) : r ≤ t := by
  obtain ⟨e, m, h1, h2, hr, hm⟩ := hx
  obtain ⟨f, k, g1, g2, ht, hk⟩ := hy
  have hef : e < f + 1 := by
    have : (2 : ℚ) ^ e < 2 ^ (f + 1) := lt_of_le_of_lt (le_trans h1 hxy) g2
    exact (zpow_lt_zpow_iff_right₀ (by norm_num : (1 : ℚ) < 2)).mp this
  rcases (by omega : e = f ∨ e + 1 ≤ f) with heq | hlt
  · subst heq
    have hs : (0 : ℚ) < 2 ^ (52 - e) := two_zpow_pos _
    have hmk : m ≤ k := IsRne_mono hm hk (mul_le_mul_of_nonneg_right hxy hs.le)
    have : (m : ℚ) ≤ k := by exact_mod_cast hmk
    rw [hr, ht]
    exact mul_le_mul_of_nonneg_right this (two_zpow_pos _).le
  · have b1 := (IsRoundPos_bounds h1 h2 hr hm).2
    have b2 := (IsRoundPos_bounds g1 g2 ht hk).1
    have : (2 : ℚ) ^ (e + 1) ≤ 2 ^ f := zpow_le_zpow_right₀ (by norm_num) hlt
    linarith

theorem Rounds_mono {x y r t : ℚ} (hx : Rounds x r) (hy : Rounds y t) (hxy : x ≤ y) :
    r ≤ t := by
  rcases hx with ⟨hx0, hr0⟩ | ⟨hx0, hr⟩ | ⟨hx0, hr⟩ <;>
    rcases hy with ⟨hy0, ht0⟩ | ⟨hy0, ht⟩ | ⟨hy0, ht⟩
  · rw [hr0, ht0]
  · rw [hr0]; exact (IsRoundPos_pos ht).le
  · linarith
  · linarith
  · exact IsRoundPos_mono hr ht hxy
  · linarith
  · rw [ht0]; have := IsRoundPos_pos hr; linarith
  · have := IsRoundPos_pos hr; have := IsRoundPos_pos ht; linarith
  · have := IsRoundPos_mono ht hr (by linarith); linarith

theorem Rounds_unique {x r t : ℚ} (hr : Rounds x r) (ht : Rounds x t) : r = t :=
  le_antisymm (Rounds_mono hr ht le_rfl) (Rounds_mono ht hr le_rfl)

theorem two_zpow_toNat (s : ℤ) (hs : 0 ≤ s) : (2 : ℚ) ^ s.toNat = 2 ^ s := by
  rw [← zpow_natCast, Int.toNat_of_nonneg hs]

/-- The value computed for a positive fraction is its rounding. -/
theorem roundFrac_pos_spec (n d : Nat) (hn : 0 < n) (hd : 0 < d) :
    IsRoundPos ((n : ℚ) / d) (F64.toRat (roundFrac n d)) := by
  have hN : (n : ℤ) ≠ 0 := by exact_mod_cast (by omega : n ≠ 0)
  have hdq : (0 : ℚ) < d := by exact_mod_cast hd
  obtain ⟨h1, h2⟩ := ilog2Frac_spec n d hn hd
  have hsign : (n : ℤ).sign = 1 := Int.sign_eq_one_of_pos (by exact_mod_cast hn)
  unfold roundFrac
  rw [if_neg hN]
  simp only [Int.natAbs_ofNat, hsign, one_mul, F64.toRat]
  set e := ilog2Frac n d with he
  have key : IsRne ((n : ℚ) / d * 2 ^ (52 - e))
      (((if 0 ≤ 52 - e then rneDiv (n * 2 ^ (52 - e).toNat) d
         else rneDiv n (d * 2 ^ (-(52 - e)).toNat) : ℕ) : ℤ)) := by
    by_cases hs : 0 ≤ 52 - e
    · rw [if_pos hs]
      have := rneDiv_spec (n * 2 ^ (52 - e).toNat) d hd
      have hc : (((n * 2 ^ (52 - e).toNat : ℕ) : ℚ)) / d = (n : ℚ) / d * 2 ^ (52 - e) := by
        push_cast
        rw [two_zpow_toNat _ hs]; ring
      rw [hc] at this
      exact this
    · rw [if_neg hs]
      have hs' : 0 ≤ -(52 - e) := by omega
      have hpos : 0 < d * 2 ^ (-(52 - e)).toNat := Nat.mul_pos hd (by positivity)
      have := rneDiv_spec n (d * 2 ^ (-(52 - e)).toNat) hpos
      have hc : (n : ℚ) / ((d * 2 ^ (-(52 - e)).toNat : ℕ) : ℚ) = (n : ℚ) / d * 2 ^ (52 - e) := by
        push_cast
        rw [two_zpow_toNat _ hs', zpow_neg]
        field_simp
      rw [hc] at this
      exact this
  refine ⟨e, _, h1, h2, ?_, key⟩
  rw [show -(52 - e) = e - 52 by ring]

theorem roundFrac_neg (N : Int) (D : Nat) :
    F64.toRat (roundFrac (-N) D) = -F64.toRat (roundFrac N D) := by
  unfold roundFrac
  by_cases h : N = 0
  · subst h; simp [F64.toRat]
  · have h' : -N ≠ 0 := by omega
    rw [if_neg h, if_neg h']
    simp only [Int.natAbs_neg, Int.sign_neg, F64.toRat]
    push_cast
    ring

/-- The value computed by `roundFrac` is the rounding of the exact quotient. -/
theorem roundFrac_rounds (N : Int) (D : Nat) (hD : 0 < D) :
    Rounds ((N : ℚ) / D) (F64.toRat (roundFrac N D)) := by
  have hdq : (0 : ℚ) < D := by exact_mod_cast hD
  rcases lt_trichotomy N 0 with hneg | hz | hpos
  · right; right
    have hn : 0 < (-N).toNat := by omega
    have hcast : (((-N).toNat : ℕ) : ℤ) = -N := Int.toNat_of_nonneg (by omega)
    have hq : (((-N).toNat : ℕ) : ℚ) = -N := by exact_mod_cast hcast
    have hspec := roundFrac_pos_spec (-N).toNat D hn hD
    rw [hcast, roundFrac_neg, hq] at hspec
    refine ⟨?_, ?_⟩
    · exact div_neg_of_neg_of_pos (by exact_mod_cast hneg) hdq
    · rw [← neg_div]; exact hspec
  · left
    subst hz
    simp [roundFrac, F64.toRat]
  · right; left
    have hn : 0 < N.toNat := by omega
    have hcast : ((N.toNat : ℕ) : ℤ) = N := Int.toNat_of_nonneg (by omega)
    have hq : ((N.toNat : ℕ) : ℚ) = N := by exact_mod_cast hcast
    have hspec := roundFrac_pos_spec N.toNat D hn hD
    rw [hcast, hq] at hspec
    exact ⟨div_pos (by exact_mod_cast hpos) hdq, hspec⟩

theorem ofInt_rounds (n : Int) : Rounds (n : ℚ) (F64.toRat (F64.ofInt n)) := by
  have := roundFrac_rounds n 1 (by norm_num)
  simpa [F64.ofInt] using this

theorem two_zpow_split (k : ℤ) : (2 : ℚ) ^ k.toNat / 2 ^ (-k).toNat = 2 ^ k := by
  rcases le_total 0 k with h | h
  · have h0 : (-k).toNat = 0 := by omega
    rw [h0, two_zpow_toNat k h]; simp
  · have h0 : k.toNat = 0 := by omega
    rw [h0, two_zpow_toNat (-k) (by omega), zpow_neg]; simp

theorem div_rounds (a b : F64) (hb : b.mant ≠ 0) :
    Rounds (a.toRat / b.toRat) (F64.toRat (F64.div a b)) := by
  have hpos : 0 < b.mant.natAbs * 2 ^ (-(a.expo - b.expo)).toNat :=
    Nat.mul_pos (Int.natAbs_pos.mpr hb) (by positivity)
  have h := roundFrac_rounds ((a.mant * b.mant.sign) * 2 ^ (a.expo - b.expo).toNat)
    (b.mant.natAbs * 2 ^ (-(a.expo - b.expo)).toNat) hpos
  have h2 : (2 : ℚ) ≠ 0 := by norm_num
  have hbq : (b.mant : ℚ) ≠ 0 := by exact_mod_cast hb
  have hk := two_zpow_split (a.expo - b.expo)
  have hk2 : (2 : ℚ) ^ (a.expo - b.expo) = 2 ^ a.expo / 2 ^ b.expo := zpow_sub₀ h2 _ _
  have hA : (0 : ℚ) < 2 ^ a.expo := two_zpow_pos _
  have hB : (0 : ℚ) < 2 ^ b.expo := two_zpow_pos _
  have hP : (0 : ℚ) < 2 ^ (a.expo - b.expo).toNat := by positivity
  have hQ : (0 : ℚ) < 2 ^ (-(a.expo - b.expo)).toNat := by positivity
  have hk3 : (2 : ℚ) ^ (a.expo - b.expo).toNat * 2 ^ b.expo =
      2 ^ a.expo * 2 ^ (-(a.expo - b.expo)).toNat := by
    rw [hk2, div_eq_div_iff hQ.ne' hB.ne'] at hk
    exact hk
  have hval : (((a.mant * b.mant.sign) * 2 ^ (a.expo - b.expo).toNat : ℤ) : ℚ) /
      ((b.mant.natAbs * 2 ^ (-(a.expo - b.expo)).toNat : ℕ) : ℚ) = a.toRat / b.toRat := by
    unfold F64.toRat
    rcases lt_or_gt_of_ne hb with hneg | hpos'
    · have hs : b.mant.sign = -1 := Int.sign_eq_neg_one_of_neg hneg
      have haq : ((b.mant.natAbs : ℕ) : ℚ) = -b.mant := by
        rw [Nat.cast_natAbs, abs_of_neg hneg]; push_cast; rfl
      rw [hs]
      push_cast
      rw [haq]
      rw [div_eq_div_iff (by
        have : (b.mant : ℚ) < 0 := by exact_mod_cast hneg
        have : (0 : ℚ) < -(b.mant : ℚ) := by linarith
        positivity) (mul_ne_zero hbq hB.ne')]
      linear_combination (-(a.mant : ℚ) * b.mant) * hk3
    · have hs : b.mant.sign = 1 := Int.sign_eq_one_of_pos hpos'
      have haq : ((b.mant.natAbs : ℕ) : ℚ) = b.mant := by
        rw [Nat.cast_natAbs, abs_of_pos hpos']
      rw [hs]
      push_cast
      rw [haq]
      rw [div_eq_div_iff (mul_ne_zero hbq hQ.ne') (mul_ne_zero hbq hB.ne')]
      linear_combination ((a.mant : ℚ) * b.mant) * hk3
  unfold F64.div
  simp only
  rw [hval] at h
  exact h

theorem add_rounds (a b : F64) :
    Rounds (a.toRat + b.toRat) (F64.toRat (F64.add a b)) := by
  have h2 : (2 : ℚ) ≠ 0 := by norm_num
  have h := roundFrac_rounds
    ((a.mant * 2 ^ (a.expo - min a.expo b.expo).toNat +
      b.mant * 2 ^ (b.expo - min a.expo b.expo).toNat) * 2 ^ (min a.expo b.expo).toNat)
    (2 ^ (-(min a.expo b.expo)).toNat) (by positivity)
  have hval : (((a.mant * 2 ^ (a.expo - min a.expo b.expo).toNat +
      b.mant * 2 ^ (b.expo - min a.expo b.expo).toNat) * 2 ^ (min a.expo b.expo).toNat : ℤ) : ℚ) /
      ((2 ^ (-(min a.expo b.expo)).toNat : ℕ) : ℚ) = a.toRat + b.toRat := by
    unfold F64.toRat
    push_cast
    rw [mul_div_assoc, two_zpow_split, two_zpow_toNat _ (by omega : 0 ≤ a.expo - min a.expo b.expo),
      two_zpow_toNat _ (by omega : 0 ≤ b.expo - min a.expo b.expo), add_mul, mul_assoc, mul_assoc,
      ← zpow_add₀ h2, ← zpow_add₀ h2]
    simp
  unfold F64.add
  simp only
  rw [hval] at h
  exact h

theorem tdiv_eq_truncQ (P : ℤ) (Q : ℕ) (hQ : 0 < Q) :
    Int.tdiv P Q = truncQ ((P : ℚ) / Q) := by
  have hq : (0 : ℚ) < Q := by exact_mod_cast hQ
  unfold truncQ
  rcases le_or_lt 0 P with hP | hP
  · have : (0 : ℚ) ≤ (P : ℚ) / Q := div_nonneg (by exact_mod_cast hP) hq.le
    rw [if_pos this, Rat.floor_intCast_div_natCast, Int.tdiv_eq_ediv hP (by omega)]
  · have : ¬ (0 : ℚ) ≤ (P : ℚ) / Q := by
      have : (P : ℚ) / Q < 0 := div_neg_of_neg_of_pos (by exact_mod_cast hP) hq
      linarith
    rw [if_neg this]
    have h1 : (P : ℚ) / Q = -(((-P : ℤ) : ℚ) / Q) := by push_cast; ring
    rw [h1, Int.ceil_neg, Rat.floor_intCast_div_natCast, ← Int.tdiv_eq_ediv (by omega) (by omega),
      Int.neg_tdiv, neg_neg]

theorem toInt_eq_truncQ (a : F64) : F64.toInt a = truncQ a.toRat := by
  have h := tdiv_eq_truncQ (a.mant * 2 ^ a.expo.toNat) (2 ^ (-a.expo).toNat) (by positivity)
  have hval : (((a.mant * 2 ^ a.expo.toNat : ℤ) : ℚ)) / ((2 ^ (-a.expo).toNat : ℕ) : ℚ) =
      a.toRat := by
    unfold F64.toRat
    push_cast
    rw [mul_div_assoc, two_zpow_split]
  unfold F64.toInt
  rw [hval] at h
  rw [← h]
  push_cast
  rfl

theorem truncQ_mono {x y : ℚ} (h : x ≤ y) : truncQ x ≤ truncQ y := by
  unfold truncQ
  split_ifs with h1 h2 h2
  · exact Int.floor_mono h
  · linarith
  · have a1 : ⌈x⌉ ≤ 0 := Int.ceil_le.mpr (by push_cast; linarith)
    have a2 : 0 ≤ ⌊y⌋ := Int.floor_nonneg.mpr h2
    omega
  · exact Int.ceil_mono h

theorem toInt_mono {a b : F64} (h : a.toRat ≤ b.toRat) : F64.toInt a ≤ F64.toInt b := by
  rw [toInt_eq_truncQ, toInt_eq_truncQ]
  exact truncQ_mono h

theorem IsRne_self (m : ℤ) : IsRne (m : ℚ) m :=
  ⟨by linarith, by linarith, by rintro (h | h) <;> linarith⟩

/-- Integers below `2 ^ 53` in magnitude are binary64 values. -/
theorem Rounds_int (n : ℤ) (h : |n| < 2 ^ 53) : Rounds (n : ℚ) (n : ℚ) := by
  have hpos : ∀ k : ℕ, 0 < k → k < 2 ^ 53 → IsRoundPos (k : ℚ) (k : ℚ) := by
    intro k hk0 hk
    obtain ⟨h1, h2⟩ := ilog2_spec k (by omega)
    have he : ilog2 k < 53 :=
      (Nat.pow_lt_pow_iff_right (by norm_num : 1 < 2)).mp (lt_of_le_of_lt h1 hk)
    have h2' : (2 : ℚ) ≠ 0 := by norm_num
    have hz : (2 : ℚ) ^ (52 - (ilog2 k : ℤ)) = ((2 ^ (52 - ilog2 k) : ℕ) : ℚ) := by
      push_cast
      rw [← zpow_natCast]
      congr 1
      omega
    refine ⟨(ilog2 k : ℤ), (k * 2 ^ (52 - ilog2 k) : ℕ), ?_, ?_, ?_, ?_⟩
    · rw [zpow_natCast]; exact_mod_cast h1
    · rw [show ((ilog2 k : ℤ) + 1) = ((ilog2 k + 1 : ℕ) : ℤ) by push_cast; rfl, zpow_natCast]
      exact_mod_cast h2
    · rw [Nat.cast_mul, Int.cast_mul, Int.cast_natCast, Int.cast_natCast, ← hz, mul_assoc,
        ← zpow_add₀ h2']
      simp
    · rw [hz]
      have := IsRne_self ((k * 2 ^ (52 - ilog2 k) : ℕ) : ℤ)
      simpa using this
  rcases lt_trichotomy n 0 with hneg | hz | hp
  · right; right
    refine ⟨by exact_mod_cast hneg, ?_⟩
    have := hpos (-n).toNat (by omega) (by
      have : |n| = -n := abs_of_neg hneg
      omega)
    have hc : (((-n).toNat : ℕ) : ℚ) = -(n : ℚ) := by
      have : (((-n).toNat : ℕ) : ℤ) = -n := Int.toNat_of_nonneg (by omega)
      exact_mod_cast this
    rw [hc] at this
    exact this
  · left; subst hz; simp
  · right; left
    refine ⟨by exact_mod_cast hp, ?_⟩
    have := hpos n.toNat (by omega) (by
      have : |n| = n := abs_of_pos hp
      omega)
    have hc : ((n.toNat : ℕ) : ℚ) = (n : ℚ) := by
      have : ((n.toNat : ℕ) : ℤ) = n := Int.toNat_of_nonneg (by omega)
      exact_mod_cast this
    rw [hc] at this
    exact this

theorem ofInt_exact (n : ℤ) (h : |n| < 2 ^ 53) : (F64.ofInt n).toRat = n :=
  Rounds_unique (ofInt_rounds n) (Rounds_int n h)

end float64

/-! ## Whole days of a duration -/

namespace time

open float64

theorem tdiv_tmod_facts (d H : ℤ) (hH : 0 < H) :
    Int.tdiv d H * H + Int.tmod d H = d ∧
    (0 ≤ d → 0 ≤ Int.tmod d H ∧ Int.tmod d H < H) ∧
    (d ≤ 0 → -H < Int.tmod d H ∧ Int.tmod d H ≤ 0) := by
  refine ⟨Int.tdiv_add_tmod' d H, fun h => ⟨Int.tmod_nonneg H h, Int.tmod_lt_of_pos d hH⟩, ?_⟩
  intro h
  have e : Int.tmod d H = -Int.tmod (-d) H := by
    rw [Int.tmod_def, Int.tmod_def, Int.neg_tdiv]; ring
  have h1 := Int.tmod_nonneg H (by omega : 0 ≤ -d)
  have h2 := Int.tmod_lt_of_pos (-d) hH
  omega

theorem Rounds_zero : Rounds 0 0 := Or.inl ⟨rfl, rfl⟩

theorem ofInt_Hour : (F64.ofInt 3600000000000).toRat = 3600000000000 := by
  have := ofInt_exact 3600000000000 (by norm_num)
  exact_mod_cast this

theorem ofInt_24 : (F64.ofInt 24).toRat = 24 := by
  have := ofInt_exact 24 (by norm_num)
  exact_mod_cast this

/-- The fractional part `float64(nsec) / (60*60*1e9)` of `Hours`. -/
theorem hoursFrac_rounds (r : ℤ) (h1 : -3600000000000 < r) (h2 : r < 3600000000000) :
    Rounds ((r : ℚ) / 3600000000000)
      (F64.div (F64.ofInt r) (F64.ofInt 3600000000000)).toRat := by
  have hm : (F64.ofInt 3600000000000).mant ≠ 0 := by decide
  have h := div_rounds (F64.ofInt r) (F64.ofInt 3600000000000) hm
  have hr : |r| < 2 ^ 53 := by
    rw [abs_lt]; constructor <;> norm_num <;> omega
  rw [ofInt_exact r hr, ofInt_Hour] at h
  exact h

theorem Hours_rounds (d : ℤ) (h1 : minDuration ≤ d) (h2 : d ≤ maxDuration) :
    Rounds ((Int.tdiv d Hour : ℚ) +
        (F64.div (F64.ofInt (Int.tmod d Hour)) (F64.ofInt 3600000000000)).toRat)
      (Hours d).toRat := by
  obtain ⟨e1, e2, e3⟩ := tdiv_tmod_facts d 3600000000000 (by norm_num)
  have h1' : (-9223372036854775808 : ℤ) ≤ d := h1
  have h2' : d ≤ (9223372036854775807 : ℤ) := h2
  have hh : |Int.tdiv d 3600000000000| < 2 ^ 53 := by
    rw [abs_lt]
    constructor <;> norm_num <;> omega
  have h := add_rounds (F64.ofInt (Int.tdiv d 3600000000000))
    (F64.div (F64.ofInt (Int.tmod d 3600000000000)) (F64.ofInt 3600000000000))
  rw [ofInt_exact _ hh] at h
  exact h

/-- The value of `Hours` does not decrease when the duration grows. -/
theorem Hours_mono (d d' : ℤ) (h1 : minDuration ≤ d) (hdd : d ≤ d') (h2 : d' ≤ maxDuration) :
    (Hours d).toRat ≤ (Hours d').toRat := by
  have h1' : (-9223372036854775808 : ℤ) ≤ d := h1
  have h2' : d' ≤ (9223372036854775807 : ℤ) := h2
  have hd := Hours_rounds d h1 (le_trans hdd h2)
  have hd' := Hours_rounds d' (le_trans h1 hdd) h2
  apply Rounds_mono hd hd'
  obtain ⟨e1, e2, e3⟩ := tdiv_tmod_facts d 3600000000000 (by norm_num)
  obtain ⟨g1, g2, g3⟩ := tdiv_tmod_facts d' 3600000000000 (by norm_num)
  have hr : -3600000000000 < Int.tmod d 3600000000000 ∧
      Int.tmod d 3600000000000 < 3600000000000 := by
    rcases le_total 0 d with h | h
    · have := e2 h; omega
    · have := e3 h; omega
  have hr' : -3600000000000 < Int.tmod d' 3600000000000 ∧
      Int.tmod d' 3600000000000 < 3600000000000 := by
    rcases le_total 0 d' with h | h
    · have := g2 h; omega
    · have := g3 h; omega
  have hf := hoursFrac_rounds _ hr.1 hr.2
  have hf' := hoursFrac_rounds _ hr'.1 hr'.2
  have one : Rounds 1 1 := by
    have := Rounds_int 1 (by norm_num)
    exact_mod_cast this
  have mone : Rounds (-1) (-1) := by
    have := Rounds_int (-1) (by norm_num)
    exact_mod_cast this
  set r := Int.tmod d 3600000000000 with hrdef
  set r' := Int.tmod d' 3600000000000 with hrdef'
  set q := Int.tdiv d 3600000000000 with hqdef
  set q' := Int.tdiv d' 3600000000000 with hqdef'
  set f := (F64.div (F64.ofInt r) (F64.ofInt 3600000000000)).toRat with hfdef
  set f' := (F64.div (F64.ofInt r') (F64.ofInt 3600000000000)).toRat with hfdef'
  have hle1 : f ≤ 1 := Rounds_mono hf one (by
    rw [div_le_one (by norm_num)]; exact_mod_cast hr.2.le)
  have hge1 : -1 ≤ f' := Rounds_mono mone hf' (by
    rw [le_div_iff₀ (by norm_num)]
    have : (-3600000000000 : ℚ) ≤ r' := by exact_mod_cast hr'.1.le
    linarith)
  show (q : ℚ) + f ≤ q' + f'
  rcases (by omega : q = q' ∨ q + 1 ≤ q' ∨ q' + 1 ≤ q) with hq | hq | hq
  · have hrr : r ≤ r' := by omega
    have : f ≤ f' := Rounds_mono hf hf' (by
      apply div_le_div_of_nonneg_right _ (by norm_num)
      exact_mod_cast hrr)
    rw [hq]; linarith
  · have hqq : (q : ℚ) + 1 ≤ q' := by exact_mod_cast hq
    rcases le_or_lt 0 d with h | h
    · have := g2 (by omega)
      have : 0 ≤ f' := Rounds_mono Rounds_zero hf' (by
        apply div_nonneg _ (by norm_num)
        exact_mod_cast this.1)
      linarith
    · have := e3 (by omega)
      have : f ≤ 0 := Rounds_mono hf Rounds_zero (by
        apply div_nonpos_of_nonpos_of_nonneg _ (by norm_num)
        exact_mod_cast this.2)
      linarith
  · exfalso
    rcases le_or_lt 0 d with h | h
    · have := e2 h; have := g2 (by omega); omega
    · have := e3 (by omega)
      rcases le_or_lt 0 d' with h' | h'
      · have := g2 h'; omega
      · have := g3 (by omega); omega

theorem daysOf_mono (d d' : ℤ) (h1 : minDuration ≤ d) (hdd : d ≤ d') (h2 : d' ≤ maxDuration) :
    daysOf d ≤ daysOf d' := by
  unfold daysOf
  apply toInt_mono
  have hm : (F64.ofInt 24).mant ≠ 0 := by decide
  have a := div_rounds (Hours d) (F64.ofInt 24) hm
  have b := div_rounds (Hours d') (F64.ofInt 24) hm
  rw [ofInt_24] at a b
  apply Rounds_mono a b
  apply div_le_div_of_nonneg_right (Hours_mono d d' h1 hdd h2) (by norm_num)

/-- Whole multiples of 24 hours are converted exactly. -/
theorem daysOf_whole (k : ℤ) (h1 : -106751 ≤ k) (h2 : k ≤ 106751) :
    daysOf (k * (24 * Hour)) = k := by
  have e : k * (24 * Hour) = (24 * k) * Hour := by ring
  have hHour : Hour = 3600000000000 := rfl
  have hq : Int.tdiv (k * (24 * Hour)) Hour = 24 * k := by
    rw [e]; exact Int.mul_tdiv_cancel _ (by decide)
  have hr : Int.tmod (k * (24 * Hour)) Hour = 0 := by
    rw [e]; exact Int.mul_tmod_left _ _
  have hb1 : minDuration ≤ k * (24 * Hour) := by
    show (-9223372036854775808 : ℤ) ≤ _
    rw [hHour]; omega
  have hb2 : k * (24 * Hour) ≤ maxDuration := by
    show _ ≤ (9223372036854775807 : ℤ)
    rw [hHour]; omega
  have hH := Hours_rounds (k * (24 * Hour)) hb1 hb2
  rw [hq, hr] at hH
  have hf0 : (F64.div (F64.ofInt 0) (F64.ofInt 3600000000000)).toRat = 0 := by
    have : F64.div (F64.ofInt 0) (F64.ofInt 3600000000000) = ⟨0, 0⟩ := by decide
    rw [this]; simp [F64.toRat]
  rw [hf0, add_zero] at hH
  have hv : (Hours (k * (24 * Hour))).toRat = ((24 * k : ℤ) : ℚ) :=
    Rounds_unique hH (Rounds_int (24 * k) (by rw [abs_lt]; constructor <;> norm_num <;> omega))
  have hm : (F64.ofInt 24).mant ≠ 0 := by decide
  have a := div_rounds (Hours (k * (24 * Hour))) (F64.ofInt 24) hm
  rw [ofInt_24, hv] at a
  have hk : (((24 * k : ℤ) : ℚ)) / 24 = (k : ℚ) := by push_cast; ring
  rw [hk] at a
  have hv2 := Rounds_unique a (Rounds_int k (by rw [abs_lt]; constructor <;> norm_num <;> omega))
  unfold daysOf
  rw [toInt_eq_truncQ, hv2]
  unfold truncQ
  split_ifs <;> simp

theorem Sub_range (t u : Time) : minDuration ≤ Sub t u ∧ Sub t u ≤ maxDuration := by
  unfold Sub
  have h : minDuration ≤ maxDuration := by decide
  split_ifs with h1 h2
  · exact ⟨le_refl _, h⟩
  · exact ⟨h, le_refl _⟩
  · exact ⟨not_lt.mp h1, not_lt.mp h2⟩

theorem Sub_exact (t u : Time) (h1 : minDuration ≤ t - u) (h2 : t - u ≤ maxDuration) :
    Sub t u = t - u := by
  unfold Sub
  rw [if_neg (not_lt.mpr h1), if_neg (not_lt.mpr h2)]

theorem Sub_mono (t t' u : Time) (h : t ≤ t') : Sub t u ≤ Sub t' u := by
  unfold Sub minDuration maxDuration
  unfold Time Duration at *
  split_ifs <;> omega

/-- Just below each of the first 170 day boundaries the day count is still the
lower day. -/
theorem daysOf_below_next_day :
    ∀ k : Fin 170, daysOf (((k : ℕ) + 1 : ℤ) * (24 * Hour) - 1) = ((k : ℕ) : ℤ) := by
  decide!

/-- A duration of less than 170 days is converted to its whole days. -/
theorem daysOf_floor (d : ℤ) (h0 : 0 ≤ d) (h1 : d < 170 * (24 * Hour)) :
    daysOf d = d / (24 * Hour) := by
  have hH : (24 * Hour : ℤ) = 86400000000000 := by decide
  rw [hH] at h1 ⊢
  have hk0 : 0 ≤ d / 86400000000000 := by omega
  have hk1 : d / 86400000000000 < 170 := by omega
  obtain ⟨k, hk⟩ : ∃ k : ℕ, (k : ℤ) = d / 86400000000000 := ⟨(d / 86400000000000).toNat, by omega⟩
  have hk170 : k < 170 := by omega
  have lo := daysOf_mono (k * (24 * Hour)) d
    (by show (-9223372036854775808 : ℤ) ≤ _; rw [hH]; omega) (by rw [hH]; omega)
    (by show d ≤ (9223372036854775807 : ℤ); omega)
  have hi := daysOf_mono d (((k : ℕ) + 1 : ℤ) * (24 * Hour) - 1)
    (by show (-9223372036854775808 : ℤ) ≤ _; omega) (by rw [hH]; omega)
    (by show _ ≤ (9223372036854775807 : ℤ); rw [hH]; omega)
  rw [daysOf_whole k (by omega) (by omega)] at lo
  have e := daysOf_below_next_day ⟨k, hk170⟩
  simp only at e
  rw [e] at hi
  omega

/-- The day count is negative exactly for durations of minus one day or less. -/
theorem daysOf_neg_iff (d : ℤ) (h1 : minDuration ≤ d) (h2 : d ≤ maxDuration) :
    daysOf d < 0 ↔ d ≤ -(24 * Hour) := by
  have hH : (24 * Hour : ℤ) = 86400000000000 := by decide
  have e1 : daysOf (-86400000000000) = -1 := by decide
  have e2 : daysOf (-86399999999999) = 0 := by decide
  rw [hH]
  unfold minDuration maxDuration at *
  unfold Duration at *
  constructor
  · intro h
    by_contra hc
    have := daysOf_mono (-86399999999999) d (by decide) (by omega) h2
    omega
  · intro h
    have := daysOf_mono d (-86400000000000) h1 h (by decide)
    omega

/-- Durations strictly between minus one day and plus one day count as zero days. -/
theorem daysOf_zero_window (d : ℤ) (h1 : -(24 * Hour) < d) (h2 : d < 24 * Hour) :
    daysOf d = 0 := by
  have hH : (24 * Hour : ℤ) = 86400000000000 := by decide
  rw [hH] at h1 h2
  unfold Duration at *
  have e1 : daysOf 86399999999999 = 0 := by decide
  have e2 : daysOf (-86399999999999) = 0 := by decide
  have lo := daysOf_mono (-86399999999999) d (by decide) (by omega)
    (by show d ≤ (9223372036854775807 : ℤ); omega)
  have hi := daysOf_mono d 86399999999999
    (by show (-9223372036854775808 : ℤ) ≤ d; omega) (by omega) (by decide)
  omega

end time

/-! ## Days until expiration -/

namespace models

open float64 time

theorem DaysUntilExpiration_eq (now : Time) (c : Certificate) :
    c.DaysUntilExpiration now = daysOf (time.Sub c.ExpiresAt now) := rfl

/-- The day count of a record is negative exactly when the certificate expired
24 hours ago or earlier. -/
theorem DaysUntilExpiration_neg_iff (now : Time) (c : Certificate) :
    c.DaysUntilExpiration now < 0 ↔ c.ExpiresAt + 24 * Hour ≤ now := by
  have hH : (24 * Hour : ℤ) = 86400000000000 := by decide
  obtain ⟨r1, r2⟩ := Sub_range c.ExpiresAt now
  rw [DaysUntilExpiration_eq, daysOf_neg_iff _ r1 r2, hH]
  unfold time.Sub minDuration maxDuration
  unfold Time Duration at *
  split_ifs <;> omega

set_option maxRecDepth 4000 in
/-- C6: a certificate without error that expired one second before the clock
reading is given `DaysLeft = 0` and status WARNING by `DetermineStatus`, not
EXPIRED with a negative day count. -/
theorem C6_just_expired_is_warning :
    justExpiredCert.Error = none ∧ justExpiredCert.ExpiresAt < 63900000000000000000 ∧
    (justExpiredCert.DetermineStatus 63900000000000000000 30).DaysLeft = 0 ∧
    (justExpiredCert.DetermineStatus 63900000000000000000 30).Status = StatusWarning := by
  decide

/-- For a record without error, `DetermineStatus` reports EXPIRED with a negative
day count exactly when the certificate expired 24 hours ago or earlier. -/
theorem DetermineStatus_expired_iff (now : Time) (c : Certificate) (T : Int)
    (hE : c.Error = none) :
    ((c.DetermineStatus now T).Status = StatusExpired ∧ (c.DetermineStatus now T).DaysLeft < 0) ↔
      c.ExpiresAt + 24 * Hour ≤ now := by
  rw [← DaysUntilExpiration_neg_iff]
  have h1 : StatusWarning ≠ StatusExpired := by decide
  have h2 : StatusOK ≠ StatusExpired := by decide
  unfold Certificate.DetermineStatus
  simp only [hE, ne_eq, not_true_eq_false, if_false]
  split_ifs with ha hb <;> simp [ha, h1, h2]

/-- C7, as stated, fails: one nanosecond short of 171 days before expiration the
computed day count is 171, while the floor of the exact quotient is 170. -/
theorem C7_counterexample :
    longLivedCert.DaysUntilExpiration 63900000000000000000 = 171 ∧
    ⌊(((longLivedCert.ExpiresAt - 63900000000000000000 : ℤ) : ℚ)) / ((24 * Hour : ℤ) : ℚ)⌋ = 170 := by
  constructor
  · decide
  · have h : (longLivedCert.ExpiresAt - 63900000000000000000 : ℤ) = 14774399999999999 := by decide
    have hH : (24 * Hour : ℤ) = ((86400000000000 : ℕ) : ℤ) := by decide
    rw [h, hH, Int.cast_natCast, Rat.floor_intCast_div_natCast]
    decide

/-- C7 (amended): when the certificate expires at or after the clock reading and
less than 170 days after it, `DaysUntilExpiration` is the floor of the exact
quotient `(expiresAt - now) / 24h`. -/
theorem C7_days_floor_within_170_days (now : Time) (c : Certificate)
    (h0 : now ≤ c.ExpiresAt) (h1 : c.ExpiresAt - now < 170 * (24 * Hour)) :
    c.DaysUntilExpiration now =
      ⌊(((c.ExpiresAt - now : ℤ) : ℚ)) / ((24 * Hour : ℤ) : ℚ)⌋ := by
  have hH : (24 * Hour : ℤ) = ((86400000000000 : ℕ) : ℤ) := by decide
  have hH' : (24 * Hour : ℤ) = 86400000000000 := by decide
  have h0' : (now : ℤ) ≤ c.ExpiresAt := h0
  have h1' : (c.ExpiresAt : ℤ) - now < 170 * 86400000000000 := by rw [← hH']; exact h1
  have hlo : (-9223372036854775808 : ℤ) ≤ c.ExpiresAt - now := by
    unfold Time at *; omega
  have hhi : c.ExpiresAt - now ≤ (9223372036854775807 : ℤ) := by
    unfold Time at *; omega
  have hnn : (0 : ℤ) ≤ c.ExpiresAt - now := by
    unfold Time at *; omega
  rw [DaysUntilExpiration_eq, Sub_exact _ _ hlo hhi, daysOf_floor _ hnn h1]
  rw [hH, Int.cast_natCast, Rat.floor_intCast_div_natCast]

theorem C7_days_floor_within_170_days_witness :
    (63900000000000000000 : Time) ≤ tenDaysCert.ExpiresAt ∧
    tenDaysCert.ExpiresAt - 63900000000000000000 < 170 * (24 * Hour) ∧
    tenDaysCert.DaysUntilExpiration 63900000000000000000 =
      ⌊(((tenDaysCert.ExpiresAt - 63900000000000000000 : ℤ) : ℚ)) / ((24 * Hour : ℤ) : ℚ)⌋ :=
  ⟨by decide, by decide,
    C7_days_floor_within_170_days 63900000000000000000 tenDaysCert (by decide) (by decide)⟩

end models

/-! ## Exit code and report -/

namespace sslcheckdomain

open time models

/-- C12: `getExitCode` tests EXPIRED before WARNING: it returns 2 whenever
`Summary.Expired > 0`, whatever the warning and error counts, and 1 whenever
`Summary.Expired = 0` and `Summary.Warning > 0`. -/
theorem C12_getExitCode_expired_before_warning (report : CertificateReport) :
    (report.Summary.Expired > 0 → getExitCode report = 2) ∧
    (report.Summary.Expired = 0 → report.Summary.Warning > 0 → getExitCode report = 1) := by
  unfold getExitCode
  constructor
  · intro h
    rw [if_pos h]
  · intro h0 hw
    have hn : ¬ report.Summary.Expired > 0 := by omega
    rw [if_neg hn, if_pos hw]

theorem C12_getExitCode_expired_before_warning_witness :
    mixedReport.Summary.Expired > 0 ∧ getExitCode mixedReport = 2 ∧
    warningReport.Summary.Expired = 0 ∧ warningReport.Summary.Warning > 0 ∧
    getExitCode warningReport = 1 :=
  ⟨by decide, (C12_getExitCode_expired_before_warning mixedReport).1 (by decide),
    by decide, by decide,
    (C12_getExitCode_expired_before_warning warningReport).2 (by decide) (by decide)⟩

theorem status_constants_distinct :
    StatusExpired ≠ StatusWarning ∧ StatusExpired ≠ StatusOK ∧ StatusExpired ≠ StatusError ∧
    StatusWarning ≠ StatusOK ∧ StatusWarning ≠ StatusError ∧ StatusOK ≠ StatusError := by
  decide

/-- The counters after the loop of `createReport`, started from any summary. -/
theorem foldl_countStatus (certificates : List Certificate) :
    ∀ summary : ReportSummary,
      (certificates.foldl countStatus summary).Expired =
        summary.Expired + (certificates.countP (fun cert => cert.Status = StatusExpired) : ℕ) ∧
      (certificates.foldl countStatus summary).Warning =
        summary.Warning + (certificates.countP (fun cert => cert.Status = StatusWarning) : ℕ) ∧
      (certificates.foldl countStatus summary).OK =
        summary.OK + (certificates.countP (fun cert => cert.Status = StatusOK) : ℕ) ∧
      (certificates.foldl countStatus summary).Error =
        summary.Error + (certificates.countP (fun cert => cert.Status = StatusError) : ℕ) := by
  obtain ⟨h1, h2, h3, h4, h5, h6⟩ := status_constants_distinct
  induction certificates with
  | nil => intro summary; simp
  | cons cert rest ih =>
    intro summary
    simp only [List.foldl_cons, List.countP_cons]
    obtain ⟨e1, e2, e3, e4⟩ := ih (countStatus summary cert)
    rw [e1, e2, e3, e4]
    unfold countStatus
    by_cases c1 : cert.Status = StatusExpired
    · simp [c1, h1, h2, h3]; omega
    · by_cases c2 : cert.Status = StatusWarning
      · simp [c2, h1.symm, h4, h5]; omega
      · by_cases c3 : cert.Status = StatusOK
        · simp [c3, h2.symm, h4.symm, h6]; omega
        · by_cases c4 : cert.Status = StatusError
          · simp [c4, h3.symm, h5.symm, h6.symm]; omega
          · simp [c1, c2, c3, c4]

theorem createReport_Summary (now : Time) (certificates : List Certificate) :
    (createReport now certificates).Summary.Expired =
      (certificates.countP (fun cert => cert.Status = StatusExpired) : ℕ) ∧
    (createReport now certificates).Summary.Warning =
      (certificates.countP (fun cert => cert.Status = StatusWarning) : ℕ) ∧
    (createReport now certificates).Summary.OK =
      (certificates.countP (fun cert => cert.Status = StatusOK) : ℕ) ∧
    (createReport now certificates).Summary.Error =
      (certificates.countP (fun cert => cert.Status = StatusError) : ℕ) := by
  have h := foldl_countStatus certificates { Expired := 0, Warning := 0, OK := 0, Error := 0 }
  simpa [createReport] using h

/-- When every status is one of the four constants, the four counts add up to
the length of the list. -/
theorem countP_four (certificates : List Certificate)
    (h : ∀ cert ∈ certificates, cert.Status = StatusExpired ∨ cert.Status = StatusWarning ∨
      cert.Status = StatusOK ∨ cert.Status = StatusError) :
    certificates.countP (fun cert => cert.Status = StatusExpired) +
      certificates.countP (fun cert => cert.Status = StatusWarning) +
      certificates.countP (fun cert => cert.Status = StatusOK) +
      certificates.countP (fun cert => cert.Status = StatusError) = certificates.length := by
  obtain ⟨h1, h2, h3, h4, h5, h6⟩ := status_constants_distinct
  induction certificates with
  | nil => simp
  | cons cert rest ih =>
    have ih' := ih (fun x hx => h x (List.mem_cons_of_mem _ hx))
    simp only [List.countP_cons, List.length_cons]
    rcases h cert (List.mem_cons_self _ _) with c | c | c | c
    · simp [c, h1, h2, h3]; omega
    · simp [c, h1.symm, h4, h5]; omega
    · simp [c, h2.symm, h4.symm, h6]; omega
    · simp [c, h3.symm, h5.symm, h6.symm]; omega

/-- C13: for records whose statuses are among OK, WARNING, EXPIRED and ERROR, the
exit code of their report is 0 if and only if every record has status OK. -/
theorem C13_exit_code_zero_iff_all_ok (now : Time) (records : List Certificate)
    (h : ∀ cert ∈ records, cert.Status = StatusOK ∨ cert.Status = StatusWarning ∨
      cert.Status = StatusExpired ∨ cert.Status = StatusError) :
    getExitCode (createReport now records) = 0 ↔ ∀ cert ∈ records, cert.Status = StatusOK := by
  obtain ⟨h1, h2, h3, h4, h5, h6⟩ := status_constants_distinct
  obtain ⟨e1, e2, _, e4⟩ := createReport_Summary now records
  unfold getExitCode
  rw [e1, e2, e4]
  constructor
  · intro hz cert hc
    by_cases a : ((records.countP (fun cert => cert.Status = StatusExpired) : ℕ) : ℤ) > 0
    · rw [if_pos a] at hz; exact absurd hz (by decide)
    rw [if_neg a] at hz
    by_cases b : ((records.countP (fun cert => cert.Status = StatusWarning) : ℕ) : ℤ) > 0
    · rw [if_pos b] at hz; exact absurd hz (by decide)
    rw [if_neg b] at hz
    by_cases c : ((records.countP (fun cert => cert.Status = StatusError) : ℕ) : ℤ) > 0
    · rw [if_pos c] at hz; exact absurd hz (by decide)
    have a0 : records.countP (fun cert => cert.Status = StatusExpired) = 0 := by omega
    have b0 : records.countP (fun cert => cert.Status = StatusWarning) = 0 := by omega
    have c0 : records.countP (fun cert => cert.Status = StatusError) = 0 := by omega
    rw [List.countP_eq_zero] at a0 b0 c0
    have na := a0 cert hc
    have nb := b0 cert hc
    have nc := c0 cert hc
    simp only [decide_eq_true_eq] at na nb nc
    rcases h cert hc with s | s | s | s
    · exact s
    · exact absurd s nb
    · exact absurd s na
    · exact absurd s nc
  · intro hall
    have a0 : records.countP (fun cert => cert.Status = StatusExpired) = 0 := by
      rw [List.countP_eq_zero]
      intro cert hc
      simp [hall cert hc, h2.symm]
    have b0 : records.countP (fun cert => cert.Status = StatusWarning) = 0 := by
      rw [List.countP_eq_zero]
      intro cert hc
      simp [hall cert hc, h4.symm]
    have c0 : records.countP (fun cert => cert.Status = StatusError) = 0 := by
      rw [List.countP_eq_zero]
      intro cert hc
      simp [hall cert hc, h6]
    rw [a0, b0, c0]
    simp

theorem C13_exit_code_zero_iff_all_ok_witness :
    (∀ cert ∈ healthyRecords, cert.Status = StatusOK ∨ cert.Status = StatusWarning ∨
      cert.Status = StatusExpired ∨ cert.Status = StatusError) ∧
    (getExitCode (createReport 63900000000000000000 healthyRecords) = 0 ↔
      ∀ cert ∈ healthyRecords, cert.Status = StatusOK) :=
  ⟨by decide, C13_exit_code_zero_iff_all_ok 63900000000000000000 healthyRecords (by decide)⟩

/-- C16: the report built by `createReport` has `TotalDomains` equal to the length
of the list, carries the list unchanged, and counts in `Summary.Expired`,
`Summary.Warning`, `Summary.OK` and `Summary.Error` the records with that
status; when every status is one of the four, the counts add up to
`TotalDomains`. -/
theorem C16_createReport_counts (now : Time) (certificates : List Certificate) :
    (createReport now certificates).TotalDomains = (certificates.length : ℕ) ∧
    (createReport now certificates).Certificates = certificates ∧
    (createReport now certificates).Summary.Expired =
      (certificates.countP (fun cert => cert.Status = StatusExpired) : ℕ) ∧
    (createReport now certificates).Summary.Warning =
      (certificates.countP (fun cert => cert.Status = StatusWarning) : ℕ) ∧
    (createReport now certificates).Summary.OK =
      (certificates.countP (fun cert => cert.Status = StatusOK) : ℕ) ∧
    (createReport now certificates).Summary.Error =
      (certificates.countP (fun cert => cert.Status = StatusError) : ℕ) ∧
    ((∀ cert ∈ certificates, cert.Status = StatusExpired ∨ cert.Status = StatusWarning ∨
        cert.Status = StatusOK ∨ cert.Status = StatusError) →
      (createReport now certificates).Summary.Expired +
        (createReport now certificates).Summary.Warning +
        (createReport now certificates).Summary.OK +
        (createReport now certificates).Summary.Error =
      (createReport now certificates).TotalDomains) := by
  obtain ⟨e1, e2, e3, e4⟩ := createReport_Summary now certificates
  refine ⟨rfl, rfl, e1, e2, e3, e4, ?_⟩
  intro h
  rw [e1, e2, e3, e4]
  have hs := countP_four certificates h
  show _ = ((certificates.length : ℕ) : ℤ)
  omega

end sslcheckdomain

/-! ## Configuration -/

namespace config

theorem validOutputs_iff (key : String) :
    validOutputs key = true ↔ key = "table" ∨ key = "json" ∨ key = "prometheus" := by
  simp [validOutputs, or_assoc]

/-- C14: `Validate` returns an error whenever `Timeout <= 0`, `Concurrent <= 0`,
`Threshold < 0` or the output format is none of "table", "json", "prometheus";
and it returns no error exactly when none of these holds and the provider is
"cloudflare" with a non-empty token or "route53" with both AWS credentials
non-empty. -/
theorem C14_Validate (c : Config) :
    ((c.Timeout ≤ 0 ∨ c.Concurrent ≤ 0 ∨ c.Threshold < 0 ∨
        ¬ (c.Output = "table" ∨ c.Output = "json" ∨ c.Output = "prometheus")) →
      c.Validate ≠ none) ∧
    (c.Validate = none ↔
      (¬ c.Timeout ≤ 0 ∧ ¬ c.Concurrent ≤ 0 ∧ ¬ c.Threshold < 0 ∧
        (c.Output = "table" ∨ c.Output = "json" ∨ c.Output = "prometheus")) ∧
      ((c.Provider = "cloudflare" ∧ c.CloudflareToken ≠ "") ∨
        (c.Provider = "route53" ∧ c.AWSAccessKeyID ≠ "" ∧ c.AWSSecretAccessKey ≠ ""))) := by
  have hcr : ("route53" : String) ≠ "cloudflare" := by decide
  have key : c.Validate = none ↔
      (¬ c.Timeout ≤ 0 ∧ ¬ c.Concurrent ≤ 0 ∧ ¬ c.Threshold < 0 ∧
        (c.Output = "table" ∨ c.Output = "json" ∨ c.Output = "prometheus")) ∧
      ((c.Provider = "cloudflare" ∧ c.CloudflareToken ≠ "") ∨
        (c.Provider = "route53" ∧ c.AWSAccessKeyID ≠ "" ∧ c.AWSSecretAccessKey ≠ "")) := by
    have hv := validOutputs_iff c.Output
    have tail : (if c.Timeout ≤ 0 then some "timeout must be greater than 0"
        else if c.Concurrent ≤ 0 then some "concurrent must be greater than 0"
        else if c.Threshold < 0 then some "threshold must be non-negative"
        else if (!validOutputs c.Output) = true then
          some ("invalid output format: " ++ c.Output ++ " (valid: table, json, prometheus)")
        else none) = none ↔
        (¬ c.Timeout ≤ 0 ∧ ¬ c.Concurrent ≤ 0 ∧ ¬ c.Threshold < 0 ∧
          (c.Output = "table" ∨ c.Output = "json" ∨ c.Output = "prometheus")) := by
      rw [← hv]
      by_cases a : c.Timeout ≤ 0
      · simp [a]
      · by_cases b : c.Concurrent ≤ 0
        · simp [a, b]
        · by_cases d : c.Threshold < 0
          · simp [a, b, d]
          · cases hvo : validOutputs c.Output <;> simp [a, b, d]
    unfold Config.Validate
    by_cases p1 : c.Provider = "cloudflare"
    · have p2 : ¬ c.Provider = "route53" := by rw [p1]; exact hcr.symm
      by_cases t : c.CloudflareToken = ""
      · simp [p1, t, hcr.symm]
      · simp only [p1, t, if_true, if_false]
        rw [tail]
        simp only [ne_eq, t, not_false_eq_true, and_true, true_and, hcr.symm, false_and, or_false]
    · by_cases p2 : c.Provider = "route53"
      · by_cases k : c.AWSAccessKeyID = "" ∨ c.AWSSecretAccessKey = ""
        · rw [if_neg p1, if_pos p2, if_pos k]
          constructor
          · intro h; cases h
          · rintro ⟨_, h | h⟩
            · exact absurd h.1 p1
            · rcases k with k | k
              · exact absurd k h.2.1
              · exact absurd k h.2.2
        · rw [if_neg p1, if_pos p2, if_neg k]
          simp only [tail]
          push_neg at k
          constructor
          · intro h; exact ⟨h, Or.inr ⟨p2, k.1, k.2⟩⟩
          · intro h; exact h.1
      · rw [if_neg p1, if_neg p2]
        constructor
        · intro h; cases h
        · rintro ⟨_, h | h⟩
          · exact absurd h.1 p1
          · exact absurd h.1 p2
  refine ⟨?_, key⟩
  intro h hn
  have := (key.mp hn).1
  tauto

end config

/-! ## Truncation of the day count -/

namespace models

open float64 time

/-- C15, as stated, fails: one nanosecond short of 171 days before expiration the
remaining duration lies in the day window of `k = 170`, and the computed day
count is 171. -/
theorem C15_counterexample :
    (0 : Int) ≤ 170 ∧
    170 * (24 * Hour) ≤ longLivedCert.ExpiresAt - 63900000000000000000 ∧
    longLivedCert.ExpiresAt - 63900000000000000000 < (170 + 1) * (24 * Hour) ∧
    longLivedCert.DaysUntilExpiration 63900000000000000000 = 171 ∧
    longLivedCert.DaysUntilExpiration 63900000000000000000 ≠ 170 := by
  decide

/-- C15 (amended): `DaysUntilExpiration` truncates toward zero. For a remaining
duration `d` with `k * 24h ≤ d < (k + 1) * 24h` and `0 ≤ k < 170` it returns `k`
(ten days remaining and threshold 30 give `DaysLeft = 10` and WARNING); for
`-24h < d < 0` it returns 0, and `DetermineStatus` with any threshold `≥ 0`
gives that record without error `DaysLeft = 0` and status WARNING. -/
theorem C15_days_truncated (now : Time) (c : Certificate) :
    (∀ k : Int, 0 ≤ k → k < 170 → k * (24 * Hour) ≤ c.ExpiresAt - now →
      c.ExpiresAt - now < (k + 1) * (24 * Hour) → c.DaysUntilExpiration now = k) ∧
    (c.ExpiresAt - now = 10 * (24 * Hour) → c.Error = none →
      (c.DetermineStatus now 30).DaysLeft = 10 ∧
      (c.DetermineStatus now 30).Status = StatusWarning) ∧
    (-(24 * Hour) < c.ExpiresAt - now → c.ExpiresAt - now < 0 →
      c.DaysUntilExpiration now = 0 ∧
      ∀ T : Int, 0 ≤ T → c.Error = none →
        (c.DetermineStatus now T).DaysLeft = 0 ∧
        (c.DetermineStatus now T).Status = StatusWarning) := by
  have hH : (24 * Hour : ℤ) = 86400000000000 := by decide
  have window : ∀ k : Int, 0 ≤ k → k < 170 → k * (24 * Hour) ≤ c.ExpiresAt - now →
      c.ExpiresAt - now < (k + 1) * (24 * Hour) → c.DaysUntilExpiration now = k := by
    intro k hk0 hk1 hlo hhi
    rw [hH] at hlo hhi
    unfold Time at *
    try unfold Duration at *
    have b1 : minDuration ≤ c.ExpiresAt - now := by
      show (-9223372036854775808 : ℤ) ≤ _; omega
    have b2 : c.ExpiresAt - now ≤ maxDuration := by
      show _ ≤ (9223372036854775807 : ℤ); omega
    rw [DaysUntilExpiration_eq, Sub_exact _ _ b1 b2,
      daysOf_floor _ (by omega) (by rw [hH]; omega), hH]
    omega
  refine ⟨window, ?_, ?_⟩
  · intro hd hE
    have h10 := window 10 (by decide) (by decide) (by rw [hd]) (by rw [hd, hH]; decide)
    unfold Certificate.DetermineStatus
    simp [hE, h10]
  · intro hlo hhi
    have hw := daysOf_zero_window (c.ExpiresAt - now) hlo
      (lt_trans hhi (by decide : (0 : ℤ) < 24 * Hour))
    rw [hH] at hlo
    have h0 : c.DaysUntilExpiration now = 0 := by
      unfold Time at *
      try unfold Duration at *
      have b1 : minDuration ≤ c.ExpiresAt - now := by
        show (-9223372036854775808 : ℤ) ≤ _; omega
      have b2 : c.ExpiresAt - now ≤ maxDuration := by
        show _ ≤ (9223372036854775807 : ℤ); omega
      rw [DaysUntilExpiration_eq, Sub_exact _ _ b1 b2]
      exact hw
    refine ⟨h0, ?_⟩
    intro T hT hE
    unfold Certificate.DetermineStatus
    simp [hE, h0, hT]

theorem C15_days_truncated_witness :
    -(24 * Hour) < expiredTwoHoursCert.ExpiresAt - 63900000000000000000 ∧
    expiredTwoHoursCert.ExpiresAt - 63900000000000000000 < 0 ∧
    expiredTwoHoursCert.DaysUntilExpiration 63900000000000000000 = 0 ∧
    tenDaysCert.ExpiresAt - 63900000000000000000 = 10 * (24 * Hour) ∧
    tenDaysCert.Error = none ∧
    (tenDaysCert.DetermineStatus 63900000000000000000 30).DaysLeft = 10 ∧
    (tenDaysCert.DetermineStatus 63900000000000000000 30).Status = StatusWarning :=
  ⟨by decide, by decide,
    ((C15_days_truncated 63900000000000000000 expiredTwoHoursCert).2.2
      (by decide) (by decide)).1,
    by decide, rfl,
    (C15_days_truncated 63900000000000000000 tenDaysCert).2.1 (by decide) rfl⟩

end models

/-! ## The expiring-in filter -/

namespace sslcheckdomain

open time models checker

theorem foldl_keep (p : Certificate → Prop) [DecidablePred p] (certificates : List Certificate) :
    ∀ filtered : List Certificate,
      certificates.foldl (fun acc cert => if p cert then acc ++ [cert] else acc) filtered =
        filtered ++ certificates.filter (fun cert => decide (p cert)) := by
  induction certificates with
  | nil => intro filtered; simp
  | cons cert rest ih =>
    intro filtered
    simp only [List.foldl_cons]
    rw [ih]
    by_cases h : p cert
    · simp [h, List.filter_cons]
    · simp [h, List.filter_cons]

theorem filterExpiringIn_eq_filter (expiringIn : Int) (certificates : List Certificate)
    (hE : 0 < expiringIn) :
    filterExpiringIn expiringIn certificates =
      certificates.filter (fun cert => decide (cert.DaysLeft ≤ expiringIn)) := by
  unfold filterExpiringIn
  rw [if_pos hE, foldl_keep (fun cert => cert.DaysLeft ≤ expiringIn)]
  simp

theorem DetermineStatus_error_DaysLeft (now : Time) (x : Certificate) (T : Int)
    (h : (x.DetermineStatus now T).Status = StatusError) :
    x.Error ≠ none ∧ (x.DetermineStatus now T).DaysLeft = x.DaysLeft := by
  have h1 : StatusExpired ≠ StatusError := by decide
  have h2 : StatusWarning ≠ StatusError := by decide
  have h3 : StatusOK ≠ StatusError := by decide
  unfold Certificate.DetermineStatus at h ⊢
  by_cases hE : x.Error = none
  · exfalso
    simp only [hE, ne_eq, not_true_eq_false, if_false] at h
    split_ifs at h
    · exact h1 h
    · exact h2 h
    · exact h3 h
  · simp [hE]

/-- A record of `checkDomain` with status ERROR has `DaysLeft = 0`. -/
theorem checkDomain_error_DaysLeft (c : SSLChecker) (env : ProbeEnv) (domain : String)
    (T : Int) (h : (c.checkDomain env domain T).Status = StatusError) :
    (c.checkDomain env domain T).DaysLeft = 0 := by
  unfold SSLChecker.checkDomain at h ⊢
  cases hd : env.dial { Timeout := c.timeout } "tcp" (domain ++ ":443") (dialConfig domain) with
  | failed cause => simp [Certificate.DetermineStatus]
  | connected peers =>
    rw [hd] at h
    by_cases hc : checkCtxDone c env = true
    · simp [hc, Certificate.DetermineStatus]
    · cases peers with
      | nil => simp [hc, Certificate.DetermineStatus]
      | cons peerCert rest =>
        simp only [hc, Bool.false_eq_true, if_false] at h
        exact absurd rfl (DetermineStatus_error_DaysLeft _ _ _ h).1

/-- C17: for `E > 0` the expiring-in filter of `run` keeps exactly the records
with `DaysLeft ≤ E`, in their original order; a record produced by `checkDomain`
with status ERROR has `DaysLeft = 0` and is therefore kept. -/
theorem C17_filterExpiringIn (E : Int) (records : List Certificate) (hE : 0 < E)
    (hrec : ∀ r ∈ records, ∃ (c : SSLChecker) (env : ProbeEnv) (domain : String) (T : Int),
      r = c.checkDomain env domain T) :
    filterExpiringIn E records = records.filter (fun r => decide (r.DaysLeft ≤ E)) ∧
    (filterExpiringIn E records).Sublist records ∧
    (∀ r, r ∈ filterExpiringIn E records ↔ r ∈ records ∧ r.DaysLeft ≤ E) ∧
    (∀ r ∈ records, r.Status = StatusError → r.DaysLeft = 0 ∧ r ∈ filterExpiringIn E records) := by
  have hf := filterExpiringIn_eq_filter E records hE
  refine ⟨hf, ?_, ?_, ?_⟩
  · rw [hf]; exact List.filter_sublist _
  · intro r; rw [hf]; simp [List.mem_filter]
  · intro r hr hs
    obtain ⟨c, env, domain, T, rfl⟩ := hrec r hr
    have h0 := checkDomain_error_DaysLeft c env domain T hs
    refine ⟨h0, ?_⟩
    rw [hf, List.mem_filter]
    refine ⟨hr, ?_⟩
    rw [h0]
    simpa using hE.le

theorem C17_filterExpiringIn_witness :
    (0 : Int) < 7 ∧
    (∀ r ∈ probedRecords, ∃ (c : SSLChecker) (env : ProbeEnv) (domain : String) (T : Int),
      r = c.checkDomain env domain T) ∧
    filterExpiringIn 7 probedRecords =
      probedRecords.filter (fun r => decide (r.DaysLeft ≤ 7)) ∧
    filterExpiringIn 7 probedRecords = [twoWorkerChecker.checkDomain refusedEnv "a.example" 30] := by
  have hrec : ∀ r ∈ probedRecords, ∃ (c : SSLChecker) (env : ProbeEnv) (domain : String)
      (T : Int), r = c.checkDomain env domain T := by
    intro r hr
    simp only [probedRecords, List.mem_cons, List.mem_singleton, List.not_mem_nil, or_false] at hr
    rcases hr with rfl | rfl
    · exact ⟨_, _, _, _, rfl⟩
    · exact ⟨_, _, _, _, rfl⟩
  exact ⟨by decide, hrec, (C17_filterExpiringIn 7 probedRecords (by decide) hrec).1, by decide⟩

end sslcheckdomain
